import Mathlib

/-!
Shallow embedding of `src/ProverbsApp.py` (an interactive proverbs reader
with a resilient LLM chat client) together with proofs checking the
natural-language specification against the code.

Conventions:
* Python `str` values are modelled as Lean `String` / `List Char`.
* Python exceptions are modelled with explicit `Except` / result types.
* External effects (HTTP calls via `requests.post`, `random.uniform`,
  `time.sleep`, file reads) are modelled by explicit oracle parameters and
  event logs, so every definition is executable.
* Floating point delays are modelled over `ℚ`; the quantities the code
  computes (`1.0 * 2 ** attempt`, `min(_, 10)`, parsed `Retry-After`
  values) are exactly representable, and the jitter drawn from
  `random.uniform(0, 0.3)` is an oracle parameter.
-/

namespace Terry

/-! ## Python string primitives -/

/-- Whitespace as recognised by Python's `str.strip` / regex `\s`
(ASCII part: space, tab, newline, carriage return, vertical tab, form feed).
Unicode whitespace is not needed by any claim and is omitted. -/
def isPySpace (c : Char) : Bool :=
  c = ' ' || c = '\t' || c = '\n' || c = '\r' || c = '\x0b' || c = '\x0c'

/-- Python `str.strip()` on a character list: drop leading and trailing
whitespace. -/
def pyStripL (l : List Char) : List Char :=
  ((l.dropWhile isPySpace).reverse.dropWhile isPySpace).reverse

/-- Python `str.strip()`. -/
def pyStrip (s : String) : String :=
  ⟨pyStripL s.data⟩

/-- Python `str.lower()` (ASCII behaviour, which is all the app compares). -/
def pyLower (s : String) : String :=
  ⟨s.data.map Char.toLower⟩

/-- Python `s.ljust(width)`: pad on the right with spaces up to `width`. -/
def pyLJust (l : List Char) (width : Nat) : List Char :=
  l ++ List.replicate (width - l.length) ' '

/-- Python `s.center(width)`: CPython pads to `width` with spaces, placing
`marg // 2 + (marg & width & 1)` of the `marg = width - len(s)` pad
characters on the left. Strings already at least `width` long are returned
unchanged. -/
def pyCenter (l : List Char) (width : Nat) : List Char :=
  if width ≤ l.length then l
  else
    let marg := width - l.length
    let left := marg / 2 + (marg &&& width &&& 1)
    List.replicate left ' ' ++ l ++ List.replicate (marg - left) ' '

/-! ## Corpus parsing (`REF_RE`, `load_verses`) -/

/-- The literal `Proverbs` of `REF_RE`, lowercased for the
case-insensitive comparison. -/
def proverbsLit : List Char := ['p', 'r', 'o', 'v', 'e', 'r', 'b', 's']

/-- Case-insensitive character equality, as used by `re.IGNORECASE` on
ASCII letters. -/
def ciEqChar (c p : Char) : Bool :=
  c.toLower = p.toLower

/-- Match a literal pattern case-insensitively at the head of the input,
returning the remainder on success. -/
def matchLitCI : List Char → List Char → Option (List Char)
  | [], l => some l
  | _ :: _, [] => none
  | p :: ps, c :: cs => if ciEqChar c p then matchLitCI ps cs else none

/-- The compiled regex `REF_RE = ^\s*(Proverbs\s+\d+:\d+)\s+(.*)$` with
`re.IGNORECASE`, as a deterministic parser.  Each regex piece here is
followed by a piece that cannot consume the same characters (`\s*` before
the literal `P`, `\s+` before `\d`, `\d+` before `:` or `\s`), so greedy
maximal-munch scanning is exactly the regex's backtracking semantics.
Returns `(group 1, group 2)` on a match: group 1 is the original slice
from `Proverbs` through the last verse digit, group 2 is everything after
the separating whitespace run. -/
def refMatch (l : List Char) : Option (List Char × List Char) :=
  match matchLitCI proverbsLit (l.dropWhile isPySpace) with
  | none => none
  | some r1 =>
    if r1.takeWhile isPySpace = [] then none
    else if (r1.dropWhile isPySpace).takeWhile Char.isDigit = [] then none
    else
      match (r1.dropWhile isPySpace).dropWhile Char.isDigit with
      | [] => none
      | c3 :: r4 =>
        if c3 = ':' then
          if r4.takeWhile Char.isDigit = [] then none
          else
            match r4.dropWhile Char.isDigit with
            | [] => none
            | c5 :: r5 =>
              if isPySpace c5 then
                some ((l.dropWhile isPySpace).take
                        ((l.dropWhile isPySpace).length - (c5 :: r5).length),
                      (c5 :: r5).dropWhile isPySpace)
              else none
        else none

/-- One line of `load_verses`' loop body, applied to the already-stripped
non-blank line: on a `REF_RE` match, `(group 1, group 2)`; otherwise
`("Proverbs ?", whole line)`. -/
def parseLine (l : String) : String × String :=
  match refMatch l.data with
  | some (r, t) => (⟨r⟩, ⟨t⟩)
  | none => ("Proverbs ?", l)

/-- The loop of `load_verses`: strip each line, skip blanks, parse the
rest in order. -/
def parseLines : List String → List (String × String)
  | [] => []
  | ln :: rest =>
    let l := pyStrip ln
    if l = "" then parseLines rest
    else parseLine l :: parseLines rest

/-- Failure modes of `load_verses`. -/
inductive LoadError where
  | fileNotFound
  | noVerses
  deriving DecidableEq, Repr

/-- Embedding of `load_verses(path)`.  The file system is abstracted to
whether the path exists (`fileExists`) and the list of lines read from
it. -/
def load_verses (fileExists : Bool) (fileLines : List String) :
    Except LoadError (List (String × String)) :=
  if !fileExists then .error .fileNotFound
  else
    let verses := parseLines fileLines
    if verses = [] then .error .noVerses
    else .ok verses

/-- Number of non-blank lines of a file, the spec's measuring stick for
the size of a parsed corpus. -/
def countNonBlank (fileLines : List String) : Nat :=
  (fileLines.filter (fun ln => pyStrip ln ≠ "")).length

/-! ## Spec-side description of a splittable corpus line

`SpecRefSplit l ref txt` renders the spec's words: the line `l` consists
of optional leading whitespace, a reference prefix (`Proverbs`,
case-insensitive, then whitespace, digits, a colon, digits), at least one
whitespace character, and then the text, which starts with a non-blank
character. -/

/-- Every character of the list is Python whitespace. -/
def AllWs (l : List Char) : Prop := ∀ c ∈ l, isPySpace c

/-- Every character of the list is a decimal digit. -/
def AllDigits (l : List Char) : Prop := ∀ c ∈ l, c.isDigit

/-- Spec-side (claim-side) characterisation: line `l` splits into
reference `refg` and text `txt`. -/
def SpecRefSplit (l refg txt : List Char) : Prop :=
  ∃ lead pv ws1 d1 d2 sep,
    l = lead ++ refg ++ sep ++ txt ∧
    refg = pv ++ ws1 ++ d1 ++ ':' :: d2 ∧
    AllWs lead ∧
    pv.map Char.toLower = proverbsLit ∧
    ws1 ≠ [] ∧ AllWs ws1 ∧
    d1 ≠ [] ∧ AllDigits d1 ∧
    d2 ≠ [] ∧ AllDigits d2 ∧
    sep ≠ [] ∧ AllWs sep ∧
    (∀ c, txt.head? = some c → ¬ isPySpace c)

/-! ## Render engine (`term_width` clamp, `textwrap.fill`, `box_text`) -/

/-- Interior width computed by `box_text`:
`inner = max(20, min(w - 2 - pad*2, 120))`, over the integers as in
Python. -/
def innerWidth (w pad : Int) : Int :=
  max 20 (min (w - 2 - pad * 2) 120)

/-- Split a character list into its maximal runs of non-whitespace
characters, mirroring Python `textwrap`'s whitespace normalisation
(`replace_whitespace=True` turns every whitespace character into a word
separator). The accumulator holds the current word reversed. -/
def splitWordsAux : List Char → List Char → List (List Char)
  | [], cur => if cur = [] then [] else [cur.reverse]
  | c :: rest, cur =>
    if isPySpace c then
      if cur = [] then splitWordsAux rest []
      else cur.reverse :: splitWordsAux rest []
    else splitWordsAux rest (c :: cur)

/-- Whitespace-separated words of a text. -/
def splitWords (l : List Char) : List (List Char) :=
  splitWordsAux l []

/-- Worker for `chunksOf`, structurally recursive on a fuel bound that
dominates the number of chunks. -/
def chunksOfGo (width : Nat) : Nat → List Char → List (List Char)
  | 0, l => [l]
  | n + 1, l =>
    if l.length ≤ width ∨ width = 0 then [l]
    else l.take width :: chunksOfGo width n (l.drop width)

/-- Cut a word into pieces of at most `width` characters (Python
`textwrap`'s `break_long_words=True`).  The fuel `l.length` is enough
because each chunk removes at least one character. -/
def chunksOf (width : Nat) (l : List Char) : List (List Char) :=
  chunksOfGo width l.length l

/-- Greedy line filling over words already cut to at most `width`
characters: a word joins the current line if it fits after a single
space, else the line is emitted and the word starts the next line. -/
def wrapGreedy (width : Nat) : List (List Char) → List Char → List (List Char)
  | [], cur => if cur = [] then [] else [cur]
  | w :: ws, cur =>
    if cur = [] then wrapGreedy width ws w
    else if cur.length + 1 + w.length ≤ width then
      wrapGreedy width ws (cur ++ ' ' :: w)
    else cur :: wrapGreedy width ws w

/-- Modelled from Python's `textwrap.fill(text, width)` with its default
options, as called by `box_text`: whitespace is normalised, words are
packed greedily onto lines of at most `width` characters, and words
longer than a line are broken (`break_long_words=True`).  `textwrap`'s
additional hyphen-aware splitting point rule (`break_on_hyphens`) is not
reproduced; it only splits words at more places and cannot lengthen a
line, and no claim depends on where exactly a break falls.  The result is
the list of wrapped lines, i.e. `fill(text, width).splitlines()`. -/
def wrap (text : String) (width : Nat) : List (List Char) :=
  wrapGreedy (max width 1)
    ((splitWords text.data).flatMap (chunksOf (max width 1))) []

/-- ANSI reset code (`RESET` in the source). -/
def RESET : String := "\x1b[0m"

/-- ANSI bold code (`BOLD` in the source). -/
def BOLD : String := "\x1b[1m"

/-- The `FG` colour table of the source, as a lookup function.  `box_text`
only ever looks up keys present in the table; unknown keys (a `KeyError`
in Python) are mapped to `""` and never reached by any claim. -/
def FG (name : String) : String :=
  match name with
  | "default" => "\x1b[39m"
  | "black" => "\x1b[30m"
  | "red" => "\x1b[31m"
  | "green" => "\x1b[32m"
  | "yellow" => "\x1b[33m"
  | "blue" => "\x1b[34m"
  | "magenta" => "\x1b[35m"
  | "cyan" => "\x1b[36m"
  | "white" => "\x1b[97m"
  | "bright_black" => "\x1b[90m"
  | "bright_blue" => "\x1b[94m"
  | "bright_cyan" => "\x1b[96m"
  | "bright_magenta" => "\x1b[95m"
  | "bright_yellow" => "\x1b[93m"
  | "bright_green" => "\x1b[92m"
  | "bright_white" => "\x1b[97m"
  | "bright_red" => "\x1b[91m"
  | _ => ""

/-- The rows of `box_text(ref, text, pad, color_ref, color_text)`, in
order: top border, reference row, separator row, one row per wrapped text
line, bottom border.  The terminal width `w` (Python `term_width()`) is an
explicit parameter.  `box_text` itself joins these rows with `"\n"`. -/
def boxLines (w : Nat) (ref text : String) (pad : Nat := 2)
    (colorRef : String := "bright_cyan") (colorText : String := "bright_white") :
    List (List Char) :=
  let inner := (innerWidth w pad).toNat
  let top := '╭' :: List.replicate (inner + pad * 2) '─' ++ ['╮']
  let bot := '╰' :: List.replicate (inner + pad * 2) '─' ++ ['╯']
  let refClean := pyStrip ref
  let refLine := pyCenter refClean.data (inner + pad * 2)
  let refRow := '│' :: List.replicate pad ' ' ++ BOLD.data ++ (FG colorRef).data
      ++ refLine ++ RESET.data ++ ['│']
  let sepRow := '│' :: List.replicate pad ' ' ++ (FG "bright_black").data
      ++ List.replicate (inner + pad * 2) '─' ++ RESET.data ++ ['│']
  let bodyRows := (wrap text inner).map fun ln =>
    '│' :: List.replicate pad ' ' ++ (FG colorText).data
      ++ pyLJust ln inner ++ RESET.data ++ List.replicate pad ' ' ++ ['│']
  top :: refRow :: sepRow :: bodyRows ++ [bot]

/-- Embedding of `box_text`: the rows of `boxLines` joined with
newlines. -/
def box_text (w : Nat) (ref text : String) (pad : Nat := 2)
    (colorRef : String := "bright_cyan") (colorText : String := "bright_white") :
    String :=
  String.intercalate "\n" ((boxLines w ref text pad colorRef colorText).map (⟨·⟩))

/-- Worker for `stripAnsi`: when the flag is set we are inside an escape
sequence and skip until just past the terminating `m`. -/
def stripAnsiAux : Bool → List Char → List Char
  | _, [] => []
  | true, c :: rest =>
    if c = 'm' then stripAnsiAux false rest else stripAnsiAux true rest
  | false, c :: rest =>
    if c = '\x1b' then stripAnsiAux true rest else c :: stripAnsiAux false rest

/-- Remove the ANSI escape sequences (`ESC [ ... m`) from a character
list, keeping the visible characters. -/
def stripAnsi (l : List Char) : List Char :=
  stripAnsiAux false l

/-- Number of visible characters of a rendered row: its length after
removing ANSI escape sequences. -/
def visibleLen (l : List Char) : Nat :=
  (stripAnsi l).length

/-! ## The resilient chat client (`query_llm`)

The HTTP layer is an oracle `net : String → Nat → CallResult` giving the
outcome of the network call for a given model name and attempt index, and
the jitter drawn by `random.uniform(0, 0.3)` is an oracle
`jit : String → Nat → ℚ`.  A run produces a `RunResult` (the returned
string, or an uncaught exception) together with the list of observable
events (network calls issued, sleeps performed). -/

/-- A CPython `float` value, as far as the `Retry-After` handling can
observe one: a finite value (exactly representable here, since the code
only ever compares it, caps it at 10 and hands it to `time.sleep`),
positive or negative infinity, or NaN. -/
inductive PyFloat where
  | finite (q : ℚ)
  | inf
  | negInf
  | nan
  deriving DecidableEq, Repr

instance {α β : Type} [DecidableEq α] [DecidableEq β] :
    DecidableEq (Except α β) := fun a b =>
  match a, b with
  | .ok x, .ok y =>
    if h : x = y then .isTrue (by rw [h]) else .isFalse (by simp [h])
  | .ok _, .error _ => .isFalse (by simp)
  | .error _, .ok _ => .isFalse (by simp)
  | .error x, .error y =>
    if h : x = y then .isTrue (by rw [h]) else .isFalse (by simp [h])

/-- An HTTP response as seen by `query_llm`.  Two stdlib calls on it are
abstracted as oracle fields, the way the network itself is an oracle:
`jsonContent` is the result of `resp.json()` followed by the
`["choices"][0]["message"]["content"]` extraction (`.ok c` when the body
parses and yields the content `c`, `.error e` carrying the exception text
otherwise), and `retryAfterFloat` is the result of the CPython builtin
`float()` applied to the `Retry-After` header string (`some v` when it
parses — CPython accepts decimal numerals with underscore separators,
Unicode digits and spaces, and `inf`/`nan` spellings, a domain not
reproduced here — and `none` when it raises `ValueError`).  Concrete
instances in witnesses and counterexamples fill these fields consistently
with the actual Python behaviour on the carried strings. -/
structure HttpResponse where
  status : Nat
  retryAfter : Option String
  retryAfterFloat : Option PyFloat
  body : String
  jsonContent : Except String String
  deriving DecidableEq, Repr

/-- Outcome of one `requests.post` call: a `requests.exceptions.Timeout`,
another transport exception (with its message), or a response. -/
inductive CallResult where
  | timeout
  | exn (msg : String)
  | resp (r : HttpResponse)
  deriving DecidableEq, Repr

/-- Observable events of a `query_llm` run. -/
inductive Event where
  | call (model : String) (attempt : Nat)
  | sleep (delay : ℚ)
  deriving DecidableEq, Repr

/-- Result of a `query_llm` run: the returned string, or an uncaught
exception (with its rendering). -/
inductive RunResult where
  | ok (s : String)
  | raised (e : String)
  deriving DecidableEq, Repr

/-- Outcome of the per-model retry loop: the function returned (or
raised), or the loop finished and control advances to the next candidate
model with the current `last_err`. -/
inductive ModelOutcome where
  | done (r : RunResult) (log : List Event)
  | next (lastErr : Option String) (log : List Event)
  deriving DecidableEq, Repr

/-- Prepend events to an outcome's log. -/
def ModelOutcome.consEvents : ModelOutcome → List Event → ModelOutcome
  | .done r log, evs => .done r (evs ++ log)
  | .next le log, evs => .next le (evs ++ log)

/-- The message of the `ValueError` that CPython's `time.sleep` raises
when handed a negative finite delay. -/
def sleepValueError : String := "ValueError: sleep length must be non-negative"

/-- The message of the `ValueError` that CPython's `time.sleep` raises
when handed NaN. -/
def sleepNanError : String := "ValueError: Invalid value NaN (not a number)"

/-- The message of the `OverflowError` that CPython's `time.sleep` raises
when handed an infinite delay. -/
def sleepOverflowError : String := "OverflowError: timestamp out of range for platform time_t"

/-- The delay computed in the 429/502/503/504 branch before the 10-second
cap: `float(ra)` when the `Retry-After` header is present and non-empty
and the parse succeeds, else the exponential backoff
`1.0 * 2 ** attempt` plus jitter (the `except` branch also lands there
when `float(ra)` raises). -/
def delay429 (ra : Option String) (raFloat : Option PyFloat) (attempt : Nat)
    (j : ℚ) : PyFloat :=
  match ra with
  | none => .finite (2 ^ attempt + j)
  | some s =>
    if s = "" then .finite (2 ^ attempt + j)
    else
      match raFloat with
      | some v => v
      | none => .finite (2 ^ attempt + j)

/-- Python's `min(d, 10)` on a float: the comparison `10 < d` is false
for NaN (so NaN is kept) and for `-inf` the first argument is kept, while
`+inf` is replaced by 10. -/
def pyMin10 : PyFloat → PyFloat
  | .finite q => .finite (min q 10)
  | .inf => .finite 10
  | .negInf => .negInf
  | .nan => .nan

/-- The `for attempt in range(5)` retry loop of `query_llm` for one
model, with `remaining` attempts left starting at attempt index
`attempt`.  `time.sleep` is modelled faithfully: a negative finite delay
or `-inf` raises (`ValueError` resp. `OverflowError`), and so does NaN —
all uncaught in the source.  (`pyMin10` never produces `+inf`; the branch
is kept for totality with `time.sleep`'s overflow behaviour.) -/
def runAttempts (net : String → Nat → CallResult) (jit : String → Nat → ℚ)
    (model : String) : Nat → Nat → Option String → ModelOutcome
  | _, 0, lastErr => .next lastErr []
  | attempt, remaining + 1, _lastErr =>
    match net model attempt with
    | .timeout =>
      let d := min (2 ^ attempt + jit model attempt) 10
      if d < 0 then .done (.raised sleepValueError) [.call model attempt]
      else
        (runAttempts net jit model (attempt + 1) remaining
          (some "timeout")).consEvents [.call model attempt, .sleep d]
    | .exn e => .done (.ok ("[LLM ERROR] " ++ e)) [.call model attempt]
    | .resp r =>
      if r.status = 200 then
        match r.jsonContent with
        | .ok c => .done (.ok (pyStrip c)) [.call model attempt]
        | .error e =>
          .done (.ok ("[LLM ERROR] Bad JSON: " ++ e ++ " | Raw: " ++ r.body.take 300))
            [.call model attempt]
      else if r.status = 429 ∨ r.status = 502 ∨ r.status = 503 ∨ r.status = 504 then
        match pyMin10 (delay429 r.retryAfter r.retryAfterFloat attempt
            (jit model attempt)) with
        | .finite d =>
          if d < 0 then .done (.raised sleepValueError) [.call model attempt]
          else
            (runAttempts net jit model (attempt + 1) remaining
              (some r.body)).consEvents [.call model attempt, .sleep d]
        | .nan => .done (.raised sleepNanError) [.call model attempt]
        | .negInf => .done (.raised sleepOverflowError) [.call model attempt]
        | .inf => .done (.raised sleepOverflowError) [.call model attempt]
      else if r.status = 404 then .next (some r.body) [.call model attempt]
      else if r.status = 401 then
        .done (.ok "[LLM ERROR] 401 Unauthorized — check MISTRAL_API_KEY / project.")
          [.call model attempt]
      else
        .done (.ok ("[LLM ERROR " ++ toString r.status ++ "] " ++ r.body.take 400))
          [.call model attempt]

/-- Python renders `None` as `"None"` inside the final f-string. -/
def pyReprOpt : Option String → String
  | none => "None"
  | some s => s

/-- The `for model in model_candidates` loop of `query_llm`, threading
`last_err`, followed by the final `[FAILED]` return. -/
def runModels (net : String → Nat → CallResult) (jit : String → Nat → ℚ) :
    List String → Option String → RunResult × List Event
  | [], lastErr =>
    (.ok ("[FAILED] after retries & fallbacks. Last error: " ++ pyReprOpt lastErr), [])
  | m :: ms, lastErr =>
    match runAttempts net jit m 0 5 lastErr with
    | .done r log => (r, log)
    | .next le log =>
      let rest := runModels net jit ms le
      (rest.1, log ++ rest.2)

/-- The candidate list of `query_llm`: the live-tuned model (or, when it
is falsy, the `MISTRAL_MODEL` environment default) followed by the fixed
fallbacks. -/
def modelCandidates (liveModel envModel : String) : List String :=
  [(if liveModel = "" then envModel else liveModel),
   "mistral-large-latest", "mistral-small-latest", "open-mixtral-8x7b"]

/-- Embedding of `query_llm(prompt)`.  `apiKey` is `os.getenv`'s result
(`none` when unset); a missing or empty key returns the error marker with
no network traffic.  The prompt, system context and request body do not
influence control flow and are absorbed into the `net` oracle. -/
def query_llm (apiKey : Option String) (net : String → Nat → CallResult)
    (jit : String → Nat → ℚ) (liveModel envModel : String) :
    RunResult × List Event :=
  match apiKey with
  | none => (.ok "[LLM ERROR] MISTRAL_API_KEY not set.", [])
  | some k =>
    if k = "" then (.ok "[LLM ERROR] MISTRAL_API_KEY not set.", [])
    else runModels net jit (modelCandidates liveModel envModel) none

/-! ## Cached context (`get_proverbs_context`) -/

/-- Process state of the module-level `_PROVERBS_CONTEXT` cache, plus a
counter of how many times `load_verses` has been invoked by
`get_proverbs_context`. -/
structure CtxState where
  cache : Option String
  loads : Nat
  deriving DecidableEq, Repr

/-- Embedding of `get_proverbs_context()`.  `loadRes k` is the outcome of
the `k`-th (0-based) `load_verses(PROVERBS_FILE)` call: the parsed verses,
or the message of the exception it raised.  On a cache hit the cached
string is returned unchanged; on a miss the context (or the error string
built from the caught exception) is computed, cached, and returned. -/
def get_proverbs_context (loadRes : Nat → Except String (List (String × String)))
    (st : CtxState) : String × CtxState :=
  match st.cache with
  | some c => (c, st)
  | none =>
    let ctx :=
      match loadRes st.loads with
      | .ok verses =>
        String.intercalate "\n" (verses.map fun v => v.1 ++ " " ++ v.2)
      | .error e => "[Fehler beim Laden der Sprüche: " ++ e ++ "]"
    (ctx, ⟨some ctx, st.loads + 1⟩)

/-- Result and state after the `(n+1)`-th call to
`get_proverbs_context`, starting from the pristine process state
(`_PROVERBS_CONTEXT = None`, no loads yet). -/
def ctxCalls (loadRes : Nat → Except String (List (String × String))) :
    Nat → String × CtxState
  | 0 => get_proverbs_context loadRes ⟨none, 0⟩
  | n + 1 => get_proverbs_context loadRes (ctxCalls loadRes n).2

/-! ## The browsing loop of `main`

Only the control flow that the claims mention is modelled: which command
each input line is parsed into, whether the `save_favorite` call raises,
and which exceptions the `try ... except KeyboardInterrupt` around the
loop absorbs.  Rendering, the random verse choice and the nested Terry
mode do not affect whether the loop keeps running and are abstracted. -/

/-- The Python exceptions relevant to the browsing loop. -/
inductive PyExc where
  | ioError
  | keyboardInterrupt
  deriving DecidableEq, Repr

/-- Outcome of one iteration of the `while True` body in `main`. -/
inductive IterResult where
  | continue_
  | break_
  | raise (e : PyExc)
  deriving DecidableEq, Repr

/-- One iteration of the browsing loop on input line `s`:
`cmd = s.strip().lower()`; `q` breaks, `h` shows help and continues, `s`
appends the current verse via `save_favorite` (whose outcome is the
oracle `save`: `none` on success, `some e` when it raises `e`), `/terry`
runs the chat sub-mode and continues, anything else shows the next verse
and continues. -/
def browseIter (save : Option PyExc) (s : String) : IterResult :=
  let cmd := pyLower (pyStrip s)
  if cmd = "q" then .break_
  else if cmd = "h" then .continue_
  else if cmd = "s" then
    match save with
    | none => .continue_
    | some e => .raise e
  else .continue_

/-- How the session ends: normally (loop broke, input ended, or a
`KeyboardInterrupt` was caught by the `except KeyboardInterrupt: pass`),
or crashed with an exception that escaped `main`. -/
inductive SessionEnd where
  | normal
  | crashed (e : PyExc)
  deriving DecidableEq, Repr

/-- Run the browsing loop of `main` over a list of input lines, with
`save n` the outcome of the `save_favorite` call in iteration `n`.
Returns how the session ended and how many iterations executed.  Only
`KeyboardInterrupt` is caught (the source's `except KeyboardInterrupt:
pass`); every other exception escapes the loop and `main`. -/
def browseLoop (save : Nat → Option PyExc) : List String → Nat → SessionEnd × Nat
  | [], n => (.normal, n)
  | s :: rest, n =>
    match browseIter (save n) s with
    | .continue_ => browseLoop save rest (n + 1)
    | .break_ => (.normal, n + 1)
    | .raise .keyboardInterrupt => (.normal, n + 1)
    | .raise e => (.crashed e, n + 1)

/-! ## C7: interior width formula -/

/-- C7: for every terminal width `W` and padding `p`, `box_text`'s
interior width equals `clamp(W − 2·(1+p), 20, 120)`; `W = 22, p = 2`
gives the floor 20 and `W = 200, p = 2` gives the ceiling 120. -/
theorem c7_inner_width (w pad : Int) :
    innerWidth w pad = min 120 (max 20 (w - 2 * (1 + pad))) ∧
    innerWidth 22 2 = 20 ∧ innerWidth 200 2 = 120 := by
  refine ⟨?_, by decide, by decide⟩
  unfold innerWidth
  omega

/-! ## C5: missing credential -/

/-- C5: with no API credential configured (`MISTRAL_API_KEY` unset or
empty), `query_llm` returns the error-marker text immediately and issues
zero network calls (empty event log). -/
theorem c5_no_credential (net : String → Nat → CallResult)
    (jit : String → Nat → ℚ) (live env : String) :
    query_llm none net jit live env =
      (.ok "[LLM ERROR] MISTRAL_API_KEY not set.", []) ∧
    query_llm (some "") net jit live env =
      (.ok "[LLM ERROR] MISTRAL_API_KEY not set.", []) := by
  exact ⟨rfl, rfl⟩

/-! ## C1: an I/O failure in `save_favorite` is fatal to the session -/

/-- C1 (counterexample): with `save_favorite` raising an I/O error, the
browsing loop on inputs `["s", "q"]` ends crashed after one iteration —
the second input is never processed — while with a succeeding save the
same inputs run both iterations and end normally.  This refutes the claim
that the session continues past a failed save. -/
theorem c1_counterexample :
    browseLoop (fun _ => some .ioError) ["s", "q"] 0 = (.crashed .ioError, 1) ∧
    browseLoop (fun _ => none) ["s", "q"] 0 = (.normal, 2) := by
  exact ⟨rfl, rfl⟩

/-- C1 (amended): if the `save_favorite` call of some iteration raises an
I/O error, the exception is not caught (the loop's handler catches only
`KeyboardInterrupt`): the browsing loop stops at that iteration, no
further input is processed, and the error escapes `main`. -/
theorem c1_save_ioerror_fatal (save : Nat → Option PyExc)
    (inputs : List String) (s : String) (n : Nat)
    (h : browseIter (save n) s = .raise .ioError) :
    browseLoop save (s :: inputs) n = (.crashed .ioError, n + 1) := by
  unfold browseLoop
  rw [h]

/-- C1 (witness): the amended theorem at a concrete failing save. -/
theorem c1_witness :
    browseLoop (fun _ => some PyExc.ioError) ["s", "x", "q"] 0 =
      (.crashed .ioError, 1) :=
  c1_save_ioerror_fatal _ _ _ _ (by decide)

/-! ## C10: the proverbs context is computed at most once -/

/-- Helper: after any number of calls, the cache state is the first
call's result with exactly one load performed. -/
theorem ctxCalls_state (loadRes : Nat → Except String (List (String × String)))
    (n : Nat) :
    (ctxCalls loadRes n).2 = ⟨some (ctxCalls loadRes 0).1, 1⟩ := by
  induction n with
  | zero => rfl
  | succ n ih =>
    show (get_proverbs_context loadRes (ctxCalls loadRes n).2).2 = _
    rw [ih]
    rfl

/-- C10: `get_proverbs_context` computes its result at most once per
process: every call after the first returns the identical string as the
first call, only one `load_verses` invocation ever happens, and when the
first load raises, the error-message string itself is what is cached and
returned. -/
theorem c10_context_cached
    (loadRes : Nat → Except String (List (String × String)))
    (n : Nat) (h : 1 ≤ n) :
    (ctxCalls loadRes n).1 = (ctxCalls loadRes 0).1 ∧
    (ctxCalls loadRes n).2.loads = 1 ∧
    (∀ e, loadRes 0 = .error e →
      (ctxCalls loadRes n).1 = "[Fehler beim Laden der Sprüche: " ++ e ++ "]") := by
  obtain ⟨m, rfl⟩ := Nat.exists_eq_add_of_le h
  have hres : (ctxCalls loadRes (1 + m)).1 = (ctxCalls loadRes 0).1 := by
    have hm : 1 + m = m + 1 := by omega
    rw [hm]
    show (get_proverbs_context loadRes (ctxCalls loadRes m).2).1 = _
    rw [ctxCalls_state]
    rfl
  refine ⟨hres, by rw [ctxCalls_state], ?_⟩
  intro e he
  rw [hres]
  show (get_proverbs_context loadRes ⟨none, 0⟩).1 = _
  unfold get_proverbs_context
  rw [he]

/-- C10 (witness): concrete run where the first load fails; the second
and third calls return the cached error string and no reload happens. -/
theorem c10_witness :
    (ctxCalls (fun _ => .error "boom") 2).1 =
      (ctxCalls (fun _ => .error "boom") 0).1 ∧
    (ctxCalls (fun _ => .error "boom") 2).2.loads = 1 ∧
    (ctxCalls (fun _ => .error "boom") 2).1 =
      "[Fehler beim Laden der Sprüche: boom]" := by
  have h := c10_context_cached (fun _ => .error "boom") 2 (by decide)
  exact ⟨h.1, h.2.1, h.2.2 "boom" rfl⟩

/-! ## Branch equations of the retry loop -/

theorem runAttempts_zero (net : String → Nat → CallResult)
    (jit : String → Nat → ℚ) (model : String) (attempt : Nat)
    (le : Option String) :
    runAttempts net jit model attempt 0 le = .next le [] := rfl

theorem runAttempts_timeout {net : String → Nat → CallResult}
    {jit : String → Nat → ℚ} {model : String} {attempt : Nat}
    (k : Nat) (le : Option String)
    (hnet : net model attempt = .timeout) (hj : 0 ≤ jit model attempt) :
    runAttempts net jit model attempt (k + 1) le =
      (runAttempts net jit model (attempt + 1) k (some "timeout")).consEvents
        [.call model attempt, .sleep (min (2 ^ attempt + jit model attempt) 10)] := by
  have hd : ¬ min ((2 : ℚ) ^ attempt + jit model attempt) 10 < 0 := by
    have h2 : (0 : ℚ) ≤ 2 ^ attempt := by positivity
    have : (0 : ℚ) ≤ min ((2 : ℚ) ^ attempt + jit model attempt) 10 :=
      le_min (by linarith) (by norm_num)
    linarith
  simp only [runAttempts, hnet, if_neg hd]

theorem runAttempts_exn {net : String → Nat → CallResult}
    {jit : String → Nat → ℚ} {model : String} {attempt : Nat}
    (k : Nat) (le : Option String) {e : String}
    (hnet : net model attempt = .exn e) :
    runAttempts net jit model attempt (k + 1) le =
      .done (.ok ("[LLM ERROR] " ++ e)) [.call model attempt] := by
  simp only [runAttempts, hnet]

theorem runAttempts_200_ok {net : String → Nat → CallResult}
    {jit : String → Nat → ℚ} {model : String} {attempt : Nat}
    (k : Nat) (le : Option String) {r : HttpResponse} {c : String}
    (hnet : net model attempt = .resp r) (hs : r.status = 200)
    (hc : r.jsonContent = .ok c) :
    runAttempts net jit model attempt (k + 1) le =
      .done (.ok (pyStrip c)) [.call model attempt] := by
  simp only [runAttempts, hnet, hs, hc, if_pos rfl, if_true]

theorem runAttempts_200_bad {net : String → Nat → CallResult}
    {jit : String → Nat → ℚ} {model : String} {attempt : Nat}
    (k : Nat) (le : Option String) {r : HttpResponse} {e : String}
    (hnet : net model attempt = .resp r) (hs : r.status = 200)
    (hc : r.jsonContent = .error e) :
    runAttempts net jit model attempt (k + 1) le =
      .done (.ok ("[LLM ERROR] Bad JSON: " ++ e ++ " | Raw: " ++ r.body.take 300))
        [.call model attempt] := by
  simp only [runAttempts, hnet, hs, hc, if_pos rfl, if_true]

theorem runAttempts_retry {net : String → Nat → CallResult}
    {jit : String → Nat → ℚ} {model : String} {attempt : Nat}
    (k : Nat) (le : Option String) {r : HttpResponse} {d : ℚ}
    (hnet : net model attempt = .resp r)
    (hs : r.status = 429 ∨ r.status = 502 ∨ r.status = 503 ∨ r.status = 504)
    (hd : pyMin10 (delay429 r.retryAfter r.retryAfterFloat attempt
      (jit model attempt)) = .finite d)
    (hd0 : ¬ d < 0) :
    runAttempts net jit model attempt (k + 1) le =
      (runAttempts net jit model (attempt + 1) k (some r.body)).consEvents
        [.call model attempt, .sleep d] := by
  have h200 : ¬ r.status = 200 := by omega
  simp only [runAttempts, hnet, if_neg h200, if_pos hs, hd, if_neg hd0]

theorem runAttempts_retry_raise_neg {net : String → Nat → CallResult}
    {jit : String → Nat → ℚ} {model : String} {attempt : Nat}
    (k : Nat) (le : Option String) {r : HttpResponse} {d : ℚ}
    (hnet : net model attempt = .resp r)
    (hs : r.status = 429 ∨ r.status = 502 ∨ r.status = 503 ∨ r.status = 504)
    (hd : pyMin10 (delay429 r.retryAfter r.retryAfterFloat attempt
      (jit model attempt)) = .finite d)
    (hd0 : d < 0) :
    runAttempts net jit model attempt (k + 1) le =
      .done (.raised sleepValueError) [.call model attempt] := by
  have h200 : ¬ r.status = 200 := by omega
  simp only [runAttempts, hnet, if_neg h200, if_pos hs, hd, if_pos hd0]

theorem runAttempts_retry_raise_nan {net : String → Nat → CallResult}
    {jit : String → Nat → ℚ} {model : String} {attempt : Nat}
    (k : Nat) (le : Option String) {r : HttpResponse}
    (hnet : net model attempt = .resp r)
    (hs : r.status = 429 ∨ r.status = 502 ∨ r.status = 503 ∨ r.status = 504)
    (hd : pyMin10 (delay429 r.retryAfter r.retryAfterFloat attempt
      (jit model attempt)) = .nan) :
    runAttempts net jit model attempt (k + 1) le =
      .done (.raised sleepNanError) [.call model attempt] := by
  have h200 : ¬ r.status = 200 := by omega
  simp only [runAttempts, hnet, if_neg h200, if_pos hs, hd]

theorem runAttempts_404 {net : String → Nat → CallResult}
    {jit : String → Nat → ℚ} {model : String} {attempt : Nat}
    (k : Nat) (le : Option String) {r : HttpResponse}
    (hnet : net model attempt = .resp r) (hs : r.status = 404) :
    runAttempts net jit model attempt (k + 1) le =
      .next (some r.body) [.call model attempt] := by
  have h200 : ¬ r.status = 200 := by omega
  have hfam : ¬ (r.status = 429 ∨ r.status = 502 ∨ r.status = 503 ∨ r.status = 504) := by
    omega
  simp only [runAttempts, hnet, if_neg h200, if_neg hfam, if_pos hs]

theorem runAttempts_401 {net : String → Nat → CallResult}
    {jit : String → Nat → ℚ} {model : String} {attempt : Nat}
    (k : Nat) (le : Option String) {r : HttpResponse}
    (hnet : net model attempt = .resp r) (hs : r.status = 401) :
    runAttempts net jit model attempt (k + 1) le =
      .done (.ok "[LLM ERROR] 401 Unauthorized — check MISTRAL_API_KEY / project.")
        [.call model attempt] := by
  have h200 : ¬ r.status = 200 := by omega
  have hfam : ¬ (r.status = 429 ∨ r.status = 502 ∨ r.status = 503 ∨ r.status = 504) := by
    omega
  have h404 : ¬ r.status = 404 := by omega
  simp only [runAttempts, hnet, if_neg h200, if_neg hfam, if_neg h404, if_pos hs]

theorem runAttempts_other {net : String → Nat → CallResult}
    {jit : String → Nat → ℚ} {model : String} {attempt : Nat}
    (k : Nat) (le : Option String) {r : HttpResponse}
    (h200 : ¬ r.status = 200)
    (hfam : ¬ (r.status = 429 ∨ r.status = 502 ∨ r.status = 503 ∨ r.status = 504))
    (h404 : ¬ r.status = 404) (h401 : ¬ r.status = 401)
    (hnet : net model attempt = .resp r) :
    runAttempts net jit model attempt (k + 1) le =
      .done (.ok ("[LLM ERROR " ++ toString r.status ++ "] " ++ r.body.take 400))
        [.call model attempt] := by
  simp only [runAttempts, hnet, if_neg h200, if_neg hfam, if_neg h404, if_neg h401]

/-! ## Per-candidate loop equations of `runModels` -/

theorem runModels_done {net : String → Nat → CallResult}
    {jit : String → Nat → ℚ} {m : String} (ms : List String)
    {le : Option String} {r : RunResult} {log : List Event}
    (h : runAttempts net jit m 0 5 le = .done r log) :
    runModels net jit (m :: ms) le = (r, log) := by
  simp only [runModels, h]

theorem runModels_next {net : String → Nat → CallResult}
    {jit : String → Nat → ℚ} {m : String} (ms : List String)
    {le le2 : Option String} {log : List Event}
    (h : runAttempts net jit m 0 5 le = .next le2 log) :
    runModels net jit (m :: ms) le =
      ((runModels net jit ms le2).1, log ++ (runModels net jit ms le2).2) := by
  simp only [runModels, h]

/-! ## C3: 404 stops retrying the model and advances to the next -/

/-- C3: when a model answers 404, `query_llm` issues no further call to
it (a single call to it appears in the log) and advances to the next
candidate; concretely, with the first candidate always answering 404 and
the second answering 200 with a well-formed body, the call returns the
second model's `choices[0].message.content` (whitespace-stripped, as the
source does). -/
theorem c3_404_fallback (key A env c : String) (r4 r2 : HttpResponse)
    (net : String → Nat → CallResult) (jit : String → Nat → ℚ)
    (hkey : ¬ key = "") (hA : ¬ A = "")
    (h4 : ∀ a, net A a = .resp r4) (hs4 : r4.status = 404)
    (h2 : net "mistral-large-latest" 0 = .resp r2) (hs2 : r2.status = 200)
    (hc : r2.jsonContent = .ok c) :
    query_llm (some key) net jit A env =
      (.ok (pyStrip c), [.call A 0, .call "mistral-large-latest" 0]) := by
  have h5 : (5 : Nat) = 4 + 1 := rfl
  have eA : runAttempts net jit A 0 5 none = .next (some r4.body) [.call A 0] := by
    rw [h5]
    exact runAttempts_404 4 none (h4 0) hs4
  have eB : runAttempts net jit "mistral-large-latest" 0 5 (some r4.body) =
      .done (.ok (pyStrip c)) [.call "mistral-large-latest" 0] := by
    rw [h5]
    exact runAttempts_200_ok 4 (some r4.body) h2 hs2 hc
  have hq : query_llm (some key) net jit A env =
      runModels net jit (modelCandidates A env) none := by
    simp only [query_llm, if_neg hkey]
  rw [hq]
  unfold modelCandidates
  rw [if_neg hA]
  rw [runModels_next _ eA, runModels_done _ eB]
  rfl

/-- Network oracle for the C3 witness: `modelA` always answers 404, every
other model answers 200 with content `"  wisdom  "`. -/
def c3net : String → Nat → CallResult := fun m _ =>
  if m = "modelA" then .resp ⟨404, none, none, "no model", .error "x"⟩
  else .resp ⟨200, none, none, "raw", .ok "  wisdom  "⟩

/-- C3 (witness): concrete network oracle, 404 on `modelA` then 200 on
the first fallback. -/
theorem c3_witness :
    query_llm (some "key") c3net (fun _ _ => 0) "modelA" "env" =
      (.ok "wisdom", [.call "modelA" 0, .call "mistral-large-latest" 0]) := by
  rw [c3_404_fallback "key" "modelA" "env" "  wisdom  "
    ⟨404, none, none, "no model", .error "x"⟩
    ⟨200, none, none, "raw", .ok "  wisdom  "⟩
    c3net (fun _ _ => 0) (by decide) (by decide)
    (fun a => rfl) rfl rfl rfl rfl]
  decide

/-! ## C4: 429/502/503/504 sleep and retry the same model -/

theorem delay429_none (raFloat : Option PyFloat) (attempt : Nat) (j : ℚ) :
    delay429 none raFloat attempt j = .finite (2 ^ attempt + j) := rfl

theorem delay429_empty (raFloat : Option PyFloat) (attempt : Nat) (j : ℚ) :
    delay429 (some "") raFloat attempt j = .finite (2 ^ attempt + j) := by
  simp [delay429]

theorem delay429_parsed {s : String} {raFloat : Option PyFloat} {v : PyFloat}
    (hs : ¬ s = "") (hv : raFloat = some v) (attempt : Nat) (j : ℚ) :
    delay429 (some s) raFloat attempt j = v := by
  simp only [delay429, if_neg hs, hv]

theorem delay429_noparse {s : String} {raFloat : Option PyFloat}
    (hs : ¬ s = "") (hv : raFloat = none) (attempt : Nat) (j : ℚ) :
    delay429 (some s) raFloat attempt j = .finite (2 ^ attempt + j) := by
  simp only [delay429, if_neg hs, hv]

/-- When the jitter is non-negative and every value `float()` produces
from the header is non-negative (finite or `+inf`), the capped delay is a
non-negative finite number, so `time.sleep` succeeds. -/
theorem delay429_ok {ra : Option String} {raFloat : Option PyFloat}
    {attempt : Nat} {j : ℚ} (hj : 0 ≤ j)
    (hra : ∀ v, raFloat = some v → (∃ q, v = .finite q ∧ 0 ≤ q) ∨ v = .inf) :
    ∃ d, pyMin10 (delay429 ra raFloat attempt j) = .finite d ∧
      0 ≤ d ∧ d ≤ 10 := by
  have h2 : (0 : ℚ) ≤ 2 ^ attempt := by positivity
  have hback : ∃ d, pyMin10 (.finite (2 ^ attempt + j)) = .finite d ∧
      0 ≤ d ∧ d ≤ 10 :=
    ⟨min (2 ^ attempt + j) 10, rfl, le_min (by linarith) (by norm_num),
      min_le_right _ _⟩
  cases hcase : ra with
  | none => rw [delay429_none]; exact hback
  | some sa =>
    by_cases hs : sa = ""
    · subst hs; rw [delay429_empty]; exact hback
    · cases raFloat with
      | none => rw [delay429_noparse hs rfl]; exact hback
      | some v =>
        rw [delay429_parsed hs rfl]
        rcases hra v rfl with ⟨q, rfl, hq⟩ | rfl
        · exact ⟨min q 10, rfl, le_min hq (by norm_num), min_le_right _ _⟩
        · exact ⟨10, rfl, by norm_num, le_refl _⟩

/-- C4 (counterexample): a 429 carrying `Retry-After: -5` — present and
numeric — does not sleep and retry the same model: `min(-5.0, 10)` is
negative and `time.sleep` raises an uncaught `ValueError`, ending the run
after a single call. -/
theorem c4_counterexample :
    runAttempts (fun _ _ => .resp ⟨429, some "-5", some (.finite (-5)),
        "slow down", .error "x"⟩) (fun _ _ => 0) "m" 0 5 none =
      .done (.raised sleepValueError) [.call "m" 0] := by
  decide

/-- C4 (amended): on HTTP 429, 502, 503 or 504 the client sleeps and then
retries the same model at the next attempt index (the candidate list does
not advance); the slept delay is the `float()`-parsed `Retry-After` value
when that header is present, non-empty and parses, and otherwise
`1·2^attempt + jitter`; in both cases it is capped at 10 seconds — all
provided the parsed value is non-negative (a finite number or `+inf`):
a negative or NaN parse reaches `time.sleep`, which raises instead of
retrying.  The hypotheses record that `random.uniform(0, 0.3)` is
non-negative and that the header parses to a non-negative value. -/
theorem c4_retry_same_model {net : String → Nat → CallResult}
    {jit : String → Nat → ℚ} {model : String} {attempt : Nat}
    (k : Nat) (le : Option String) {r : HttpResponse}
    (hnet : net model attempt = .resp r)
    (hs : r.status = 429 ∨ r.status = 502 ∨ r.status = 503 ∨ r.status = 504)
    (hj : 0 ≤ jit model attempt)
    (hra : ∀ v, r.retryAfterFloat = some v →
      (∃ q, v = .finite q ∧ 0 ≤ q) ∨ v = .inf) :
    ∃ d,
      runAttempts net jit model attempt (k + 1) le =
        (runAttempts net jit model (attempt + 1) k (some r.body)).consEvents
          [.call model attempt, .sleep d] ∧
      0 ≤ d ∧ d ≤ 10 ∧
      (∀ s q, r.retryAfter = some s → ¬ s = "" →
        r.retryAfterFloat = some (.finite q) → d = min q 10) ∧
      ((r.retryAfter = none ∨ r.retryAfter = some "" ∨ r.retryAfterFloat = none) →
        d = min ((2 : ℚ) ^ attempt + jit model attempt) 10) := by
  obtain ⟨d, hd, hd0, hd10⟩ := @delay429_ok r.retryAfter r.retryAfterFloat
    attempt (jit model attempt) hj hra
  refine ⟨d, runAttempts_retry k le hnet hs hd (by linarith), hd0, hd10, ?_, ?_⟩
  · intro s q hras hse hq
    rw [hras, delay429_parsed hse hq] at hd
    simp only [pyMin10, PyFloat.finite.injEq] at hd
    exact hd.symm
  · intro hcase
    rcases hcase with h | h | h
    · rw [h, delay429_none] at hd
      simp only [pyMin10, PyFloat.finite.injEq] at hd
      exact hd.symm
    · rw [h, delay429_empty] at hd
      simp only [pyMin10, PyFloat.finite.injEq] at hd
      exact hd.symm
    · cases hras : r.retryAfter with
      | none =>
        rw [hras, delay429_none] at hd
        simp only [pyMin10, PyFloat.finite.injEq] at hd
        exact hd.symm
      | some sa =>
        by_cases hse : sa = ""
        · subst hse
          rw [hras, delay429_empty] at hd
          simp only [pyMin10, PyFloat.finite.injEq] at hd
          exact hd.symm
        · rw [hras, delay429_noparse hse h] at hd
          simp only [pyMin10, PyFloat.finite.injEq] at hd
          exact hd.symm

/-- Network oracle for the C4 witness: a 429 with `Retry-After: 2` on the
first attempt, then an unrelated transport error. -/
def c4net : String → Nat → CallResult := fun _ a =>
  if a = 0 then .resp ⟨429, some "2", some (.finite 2), "slow down", .error "x"⟩
  else .exn "later"

/-- C4 (witness): a concrete 429 with `Retry-After: 2`; the run sleeps
exactly 2 seconds and calls the same model again at attempt 1. -/
theorem c4_witness :
    runAttempts c4net (fun _ _ => 0) "m" 0 5 none =
      (runAttempts c4net (fun _ _ => 0) "m" 1 4 (some "slow down")).consEvents
        [.call "m" 0, .sleep 2] := by
  obtain ⟨d, h1, _, _, h3, _⟩ := @c4_retry_same_model c4net
    (fun _ _ => 0) "m" 0 4 none
    ⟨429, some "2", some (.finite 2), "slow down", .error "x"⟩
    rfl (by decide) (by decide)
    (by intro v hv
        cases hv
        exact .inl ⟨2, rfl, by decide⟩)
  have hd2 : d = 2 := by
    rw [h3 "2" 2 rfl (by decide) rfl]
    decide
  rw [hd2] at h1
  exact h1

/-! ## C6: failures come back as marked strings (with one exception) -/

/-- The returned text carries one of the textual failure markers. -/
def errMarker (s : String) : Prop :=
  (∃ t, s = "[LLM ERROR" ++ t) ∨ (∃ t, s = "[FAILED" ++ t)

theorem strAppend_assoc (a b c : String) : a ++ b ++ c = a ++ (b ++ c) := by
  cases a with | mk la =>
  cases b with | mk lb =>
  cases c with | mk lc =>
  show String.mk (la ++ lb ++ lc) = String.mk (la ++ (lb ++ lc))
  rw [List.append_assoc]

theorem errMarker_append (s t : String) (h : errMarker s) : errMarker (s ++ t) := by
  rcases h with ⟨u, rfl⟩ | ⟨u, rfl⟩
  · exact .inl ⟨u ++ t, strAppend_assoc _ _ _⟩
  · exact .inr ⟨u ++ t, strAppend_assoc _ _ _⟩

theorem errMarker_llm_sp (e : String) : errMarker ("[LLM ERROR] " ++ e) :=
  errMarker_append "[LLM ERROR] " e (.inl ⟨"] ", rfl⟩)

/-- Every terminal branch of the per-model loop either returns a marked
error string or advances to the next candidate model, provided the
jitter is non-negative, every `Retry-After` value that `float()` accepts
is non-negative (finite or `+inf`), and no response is a well-formed 200
(the run is a sequence of failures). -/
theorem runAttempts_ok_or_next (net : String → Nat → CallResult)
    (jit : String → Nat → ℚ)
    (hj : ∀ m a, 0 ≤ jit m a)
    (hra : ∀ m a r v, net m a = .resp r → r.retryAfterFloat = some v →
      (∃ q, v = .finite q ∧ 0 ≤ q) ∨ v = .inf)
    (hns : ∀ m a r c, net m a = .resp r → r.status = 200 → r.jsonContent ≠ .ok c) :
    ∀ (k : Nat) (model : String) (attempt : Nat) (le : Option String),
      (∃ s log, runAttempts net jit model attempt k le = .done (.ok s) log ∧
        errMarker s) ∨
      (∃ le2 log, runAttempts net jit model attempt k le = .next le2 log) := by
  intro k
  induction k with
  | zero => exact fun model attempt le => .inr ⟨le, [], rfl⟩
  | succ k ih =>
    intro model attempt le
    cases hnet : net model attempt with
    | timeout =>
      rw [runAttempts_timeout k le hnet (hj model attempt)]
      rcases ih model (attempt + 1) (some "timeout") with
        ⟨s, log, heq, hm⟩ | ⟨le2, log, heq⟩
      · exact .inl ⟨s, _, by rw [heq]; rfl, hm⟩
      · exact .inr ⟨le2, _, by rw [heq]; rfl⟩
    | exn e =>
      rw [runAttempts_exn k le hnet]
      exact .inl ⟨_, _, rfl, errMarker_llm_sp e⟩
    | resp r =>
      by_cases h200 : r.status = 200
      · cases hjc : r.jsonContent with
        | ok c => exact absurd hjc (hns model attempt r c hnet h200)
        | error e =>
          rw [runAttempts_200_bad k le hnet h200 hjc]
          refine .inl ⟨_, _, rfl, ?_⟩
          exact errMarker_append _ _ (errMarker_append _ _
            (errMarker_append "[LLM ERROR] Bad JSON: " e (.inl ⟨"] Bad JSON: ", rfl⟩)))
      · by_cases hfam : r.status = 429 ∨ r.status = 502 ∨ r.status = 503 ∨
            r.status = 504
        · obtain ⟨d, hd, hd0, _⟩ := @delay429_ok r.retryAfter r.retryAfterFloat
            attempt (jit model attempt) (hj model attempt)
            (fun v hv => hra model attempt r v hnet hv)
          rw [runAttempts_retry k le hnet hfam hd (by linarith)]
          rcases ih model (attempt + 1) (some r.body) with
            ⟨s, log, heq, hm⟩ | ⟨le2, log, heq⟩
          · exact .inl ⟨s, _, by rw [heq]; rfl, hm⟩
          · exact .inr ⟨le2, _, by rw [heq]; rfl⟩
        · by_cases h404 : r.status = 404
          · rw [runAttempts_404 k le hnet h404]
            exact .inr ⟨_, _, rfl⟩
          · by_cases h401 : r.status = 401
            · rw [runAttempts_401 k le hnet h401]
              exact .inl ⟨_, _, rfl,
                .inl ⟨"] 401 Unauthorized — check MISTRAL_API_KEY / project.", rfl⟩⟩
            · rw [runAttempts_other k le h200 hfam h404 h401 hnet]
              refine .inl ⟨_, _, rfl, ?_⟩
              exact errMarker_append _ _ (errMarker_append _ _
                (errMarker_append "[LLM ERROR " (toString r.status)
                  (.inl ⟨" ", rfl⟩)))

/-- The candidate-list loop returns a marked error string under the same
hypotheses. -/
theorem runModels_marked (net : String → Nat → CallResult)
    (jit : String → Nat → ℚ)
    (hj : ∀ m a, 0 ≤ jit m a)
    (hra : ∀ m a r v, net m a = .resp r → r.retryAfterFloat = some v →
      (∃ q, v = .finite q ∧ 0 ≤ q) ∨ v = .inf)
    (hns : ∀ m a r c, net m a = .resp r → r.status = 200 → r.jsonContent ≠ .ok c) :
    ∀ (ms : List String) (le : Option String),
      ∃ s, (runModels net jit ms le).1 = .ok s ∧ errMarker s := by
  intro ms
  induction ms with
  | nil =>
    intro le
    exact ⟨_, rfl, errMarker_append "[FAILED] after retries & fallbacks. Last error: "
      (pyReprOpt le) (.inr ⟨"] after retries & fallbacks. Last error: ", rfl⟩)⟩
  | cons m ms ih =>
    intro le
    rcases runAttempts_ok_or_next net jit hj hra hns 5 m 0 le with
      ⟨s, log, heq, hm⟩ | ⟨le2, log, heq⟩
    · exact ⟨s, by rw [runModels_done ms heq], hm⟩
    · obtain ⟨s, hs, hm⟩ := ih le2
      exact ⟨s, by rw [runModels_next ms heq]; exact hs, hm⟩

/-- C6 (counterexample): a 429 response carrying `Retry-After: -1` — an
HTTP error status among those the claim covers — makes the code hand the
negative parsed value to `time.sleep`, which raises `ValueError`;
`query_llm` raises instead of returning a string. -/
theorem c6_counterexample :
    (query_llm (some "key")
        (fun _ _ => .resp ⟨429, some "-1", some (.finite (-1)), "slow down", .error "x"⟩)
        (fun _ _ => 0) "m" "env").1 =
      .raised sleepValueError := by
  decide

/-- C6 (amended): for every prompt and every sequence of ordinary remote
failures — transport timeouts, other transport exceptions, JSON parse
failures, any HTTP error status, exhaustion of all candidates —
`query_llm` returns a string and never raises, PROVIDED every
`Retry-After` value that `float()` accepts parses to a non-negative
finite number or `+inf` (a negative or NaN parse reaches `time.sleep`,
which raises uncaught); each failure is encoded as a textual
`[LLM ERROR ...]` or `[FAILED ...]` payload. -/
theorem c6_failures_marked (apiKey : Option String)
    (net : String → Nat → CallResult) (jit : String → Nat → ℚ)
    (live env : String)
    (hj : ∀ m a, 0 ≤ jit m a)
    (hra : ∀ m a r v, net m a = .resp r → r.retryAfterFloat = some v →
      (∃ q, v = .finite q ∧ 0 ≤ q) ∨ v = .inf)
    (hns : ∀ m a r c, net m a = .resp r → r.status = 200 → r.jsonContent ≠ .ok c) :
    ∃ s, (query_llm apiKey net jit live env).1 = .ok s ∧ errMarker s := by
  match apiKey with
  | none => exact ⟨_, rfl, .inl ⟨"] MISTRAL_API_KEY not set.", rfl⟩⟩
  | some k =>
    by_cases hk : k = ""
    · subst hk
      exact ⟨_, rfl, .inl ⟨"] MISTRAL_API_KEY not set.", rfl⟩⟩
    · obtain ⟨s, hs, hm⟩ := runModels_marked net jit hj hra hns
        (modelCandidates live env) none
      refine ⟨s, ?_, hm⟩
      show (if k = "" then _ else runModels net jit (modelCandidates live env) none).1 = _
      rw [if_neg hk]
      exact hs

/-- C6 (witness): the amended theorem at a concrete failing network (a
non-timeout transport exception on the first call). -/
theorem c6_witness :
    ∃ s, (query_llm (some "key") (fun _ _ => .exn "boom")
        (fun _ _ => 0) "m" "env").1 = .ok s ∧ errMarker s :=
  c6_failures_marked (some "key") (fun _ _ => .exn "boom") (fun _ _ => 0) "m" "env"
    (fun _ _ => le_refl 0)
    (fun m a r v h => by cases h)
    (fun m a r c h => by cases h)

/-! ## Visible width lemmas for the rendered box -/

theorem stripAnsi_nil : stripAnsi [] = [] := rfl

theorem stripAnsi_cons (c : Char) (rest : List Char) :
    stripAnsi (c :: rest) =
      if c = '\x1b' then stripAnsiAux true rest else c :: stripAnsi rest := by
  simp only [stripAnsi, stripAnsiAux]

theorem stripAnsiAux_skip (mid rest : List Char) (h : 'm' ∉ mid) :
    stripAnsiAux true (mid ++ 'm' :: rest) = stripAnsi rest := by
  induction mid with
  | nil => simp [stripAnsiAux, stripAnsi]
  | cons c cs ih =>
    have hc : ¬ c = 'm' := fun hcm => h (hcm ▸ List.mem_cons_self c cs)
    simp only [List.cons_append, stripAnsiAux, if_neg hc]
    exact ih (fun hm => h (List.mem_cons_of_mem c hm))

theorem stripAnsi_clean : ∀ l : List Char, '\x1b' ∉ l → stripAnsi l = l := by
  intro l
  induction l with
  | nil => intro _; exact stripAnsi_nil
  | cons c cs ih =>
    intro h
    have hc : ¬ c = '\x1b' := fun hce => h (hce ▸ List.mem_cons_self c cs)
    rw [stripAnsi_cons, if_neg hc, ih (fun hm => h (List.mem_cons_of_mem c hm))]

theorem stripAnsi_append_clean : ∀ a : List Char, '\x1b' ∉ a →
    ∀ b, stripAnsi (a ++ b) = a ++ stripAnsi b := by
  intro a
  induction a with
  | nil => intro _ b; rfl
  | cons c cs ih =>
    intro h b
    have hc : ¬ c = '\x1b' := fun hce => h (hce ▸ List.mem_cons_self c cs)
    rw [List.cons_append, stripAnsi_cons, if_neg hc,
      ih (fun hm => h (List.mem_cons_of_mem c hm)) b, List.cons_append]

theorem stripAnsi_esc (mid rest : List Char) (h : 'm' ∉ mid) :
    stripAnsi ('\x1b' :: mid ++ 'm' :: rest) = stripAnsi rest := by
  rw [List.cons_append, stripAnsi_cons, if_pos rfl, stripAnsiAux_skip mid rest h]

theorem pyCenter_length (l : List Char) (width : Nat) :
    (pyCenter l width).length = max l.length width := by
  unfold pyCenter
  by_cases h : width ≤ l.length
  · rw [if_pos h]; omega
  · rw [if_neg h]
    have hb : (width - l.length) &&& width &&& 1 ≤ 1 := by
      rw [Nat.and_one_is_mod]
      omega
    simp only [List.length_append, List.length_replicate]
    omega

theorem mem_pyCenter {c : Char} {l : List Char} {width : Nat}
    (h : c ∈ pyCenter l width) : c ∈ l ∨ c = ' ' := by
  unfold pyCenter at h
  by_cases hw : width ≤ l.length
  · rw [if_pos hw] at h; exact .inl h
  · rw [if_neg hw] at h
    simp only [List.mem_append, List.mem_replicate] at h
    rcases h with (⟨_, h⟩ | h) | ⟨_, h⟩
    · exact .inr h
    · exact .inl h
    · exact .inr h

theorem pyLJust_length {l : List Char} {width : Nat} (h : l.length ≤ width) :
    (pyLJust l width).length = width := by
  unfold pyLJust
  simp only [List.length_append, List.length_replicate]
  omega

theorem mem_pyLJust {c : Char} {l : List Char} {width : Nat}
    (h : c ∈ pyLJust l width) : c ∈ l ∨ c = ' ' := by
  unfold pyLJust at h
  simp only [List.mem_append, List.mem_replicate] at h
  rcases h with h | ⟨_, h⟩
  · exact .inl h
  · exact .inr h

theorem mem_pyStripL {c : Char} {l : List Char} (h : c ∈ pyStripL l) : c ∈ l := by
  unfold pyStripL at h
  rw [List.mem_reverse] at h
  have h2 := (List.dropWhile_sublist isPySpace).subset h
  rw [List.mem_reverse] at h2
  exact (List.dropWhile_sublist isPySpace).subset h2

theorem mem_splitWordsAux {c : Char} : ∀ (l cur : List Char) (w : List Char),
    w ∈ splitWordsAux l cur → c ∈ w → c ∈ l ∨ c ∈ cur := by
  intro l
  induction l with
  | nil =>
    intro cur w hw hc
    unfold splitWordsAux at hw
    by_cases h : cur = []
    · rw [if_pos h] at hw; simp at hw
    · rw [if_neg h] at hw
      rcases List.mem_cons.mp hw with heq | hw
      · subst heq; exact .inr (List.mem_reverse.mp hc)
      · simp at hw
  | cons x xs ih =>
    intro cur w hw hc
    unfold splitWordsAux at hw
    by_cases hx : isPySpace x
    · rw [if_pos hx] at hw
      by_cases h : cur = []
      · rw [if_pos h] at hw
        rcases ih [] w hw hc with h2 | h2
        · exact .inl (List.mem_cons_of_mem x h2)
        · simp at h2
      · rw [if_neg h] at hw
        rcases List.mem_cons.mp hw with heq | hw
        · subst heq; exact .inr (List.mem_reverse.mp hc)
        · rcases ih [] w hw hc with h2 | h2
          · exact .inl (List.mem_cons_of_mem x h2)
          · simp at h2
    · rw [if_neg hx] at hw
      rcases ih (x :: cur) w hw hc with h2 | h2
      · exact .inl (List.mem_cons_of_mem x h2)
      · rcases List.mem_cons.mp h2 with heq | h2
        · subst heq; exact .inl (List.mem_cons_self _ _)
        · exact .inr h2

theorem mem_splitWords {c : Char} {l : List Char} {w : List Char}
    (hw : w ∈ splitWords l) (hc : c ∈ w) : c ∈ l := by
  rcases mem_splitWordsAux l [] w hw hc with h | h
  · exact h
  · simp at h

theorem chunksOfGo_length_le (width : Nat) (hw : 0 < width) :
    ∀ (n : Nat) (l : List Char), l.length ≤ (n + 1) * width →
      ∀ ch ∈ chunksOfGo width n l, ch.length ≤ width := by
  intro n
  induction n with
  | zero =>
    intro l hl ch hch
    unfold chunksOfGo at hch
    rcases List.mem_cons.mp hch with heq | hch
    · subst heq; omega
    · simp at hch
  | succ n ih =>
    intro l hl ch hch
    unfold chunksOfGo at hch
    by_cases hcond : l.length ≤ width ∨ width = 0
    · rw [if_pos hcond] at hch
      rcases List.mem_cons.mp hch with heq | hch
      · subst heq; omega
      · simp at hch
    · rw [if_neg hcond] at hch
      rcases List.mem_cons.mp hch with heq | hch
      · subst heq
        simp only [List.length_take]
        omega
      · refine ih (l.drop width) ?_ ch hch
        simp only [List.length_drop]
        have : (n + 1) * width + width = (n + 1 + 1) * width := by ring
        omega

theorem mem_chunksOfGo {c : Char} (width : Nat) :
    ∀ (n : Nat) (l : List Char), ∀ ch ∈ chunksOfGo width n l, c ∈ ch → c ∈ l := by
  intro n
  induction n with
  | zero =>
    intro l ch hch hc
    unfold chunksOfGo at hch
    rcases List.mem_cons.mp hch with heq | hch
    · subst heq; exact hc
    · simp at hch
  | succ n ih =>
    intro l ch hch hc
    unfold chunksOfGo at hch
    by_cases hcond : l.length ≤ width ∨ width = 0
    · rw [if_pos hcond] at hch
      rcases List.mem_cons.mp hch with heq | hch
      · subst heq; exact hc
      · simp at hch
    · rw [if_neg hcond] at hch
      rcases List.mem_cons.mp hch with heq | hch
      · subst heq; exact List.mem_of_mem_take hc
      · exact List.mem_of_mem_drop (ih (l.drop width) ch hch hc)

theorem chunksOf_length_le (width : Nat) (hw : 0 < width) (l : List Char) :
    ∀ ch ∈ chunksOf width l, ch.length ≤ width := by
  refine chunksOfGo_length_le width hw l.length l ?_
  have h1 : (l.length + 1) * 1 ≤ (l.length + 1) * width :=
    Nat.mul_le_mul_left _ hw
  omega

theorem mem_chunksOf {c : Char} (width : Nat) (l : List Char)
    (ch : List Char) (hch : ch ∈ chunksOf width l) (hc : c ∈ ch) : c ∈ l :=
  mem_chunksOfGo width l.length l ch hch hc

theorem wrapGreedy_length (width : Nat) :
    ∀ (ws : List (List Char)) (cur : List Char),
      (∀ w ∈ ws, w.length ≤ width) → cur.length ≤ width →
      ∀ line ∈ wrapGreedy width ws cur, line.length ≤ width := by
  intro ws
  induction ws with
  | nil =>
    intro cur _ hcur line hline
    unfold wrapGreedy at hline
    by_cases h : cur = []
    · rw [if_pos h] at hline; simp at hline
    · rw [if_neg h] at hline
      rcases List.mem_cons.mp hline with heq | hline
      · subst heq; exact hcur
      · simp at hline
  | cons w ws ih =>
    intro cur hws hcur line hline
    unfold wrapGreedy at hline
    by_cases hc : cur = []
    · rw [if_pos hc] at hline
      exact ih w (fun v hv => hws v (List.mem_cons_of_mem w hv))
        (hws w (List.mem_cons_self _ _)) line hline
    · rw [if_neg hc] at hline
      by_cases hfit : cur.length + 1 + w.length ≤ width
      · rw [if_pos hfit] at hline
        refine ih (cur ++ ' ' :: w) (fun v hv => hws v (List.mem_cons_of_mem w hv))
          ?_ line hline
        simp only [List.length_append, List.length_cons]
        omega
      · rw [if_neg hfit] at hline
        rcases List.mem_cons.mp hline with heq | hline
        · subst heq; exact hcur
        · exact ih w (fun v hv => hws v (List.mem_cons_of_mem w hv))
            (hws w (List.mem_cons_self _ _)) line hline

theorem mem_wrapGreedy {c : Char} (width : Nat) :
    ∀ (ws : List (List Char)) (cur line : List Char),
      line ∈ wrapGreedy width ws cur → c ∈ line →
      (∃ w ∈ ws, c ∈ w) ∨ c ∈ cur ∨ c = ' ' := by
  intro ws
  induction ws with
  | nil =>
    intro cur line hline hc
    unfold wrapGreedy at hline
    by_cases h : cur = []
    · rw [if_pos h] at hline; simp at hline
    · rw [if_neg h] at hline
      rcases List.mem_cons.mp hline with heq | hline
      · subst heq; exact .inr (.inl hc)
      · simp at hline
  | cons w ws ih =>
    intro cur line hline hc
    unfold wrapGreedy at hline
    by_cases hcur : cur = []
    · rw [if_pos hcur] at hline
      rcases ih w line hline hc with ⟨v, hv, hcv⟩ | h | h
      · exact .inl ⟨v, List.mem_cons_of_mem w hv, hcv⟩
      · exact .inl ⟨w, List.mem_cons_self _ _, h⟩
      · exact .inr (.inr h)
    · rw [if_neg hcur] at hline
      by_cases hfit : cur.length + 1 + w.length ≤ width
      · rw [if_pos hfit] at hline
        rcases ih (cur ++ ' ' :: w) line hline hc with ⟨v, hv, hcv⟩ | h | h
        · exact .inl ⟨v, List.mem_cons_of_mem w hv, hcv⟩
        · rcases List.mem_append.mp h with h | h
          · exact .inr (.inl h)
          · rcases List.mem_cons.mp h with h | h
            · exact .inr (.inr h)
            · exact .inl ⟨w, List.mem_cons_self _ _, h⟩
        · exact .inr (.inr h)
      · rw [if_neg hfit] at hline
        rcases List.mem_cons.mp hline with heq | hline
        · subst heq; exact .inr (.inl hc)
        · rcases ih w line hline hc with ⟨v, hv, hcv⟩ | h | h
          · exact .inl ⟨v, List.mem_cons_of_mem w hv, hcv⟩
          · exact .inl ⟨w, List.mem_cons_self _ _, h⟩
          · exact .inr (.inr h)

theorem wrap_line_length {text : String} {width : Nat} {line : List Char}
    (h : line ∈ wrap text width) : line.length ≤ max width 1 := by
  refine wrapGreedy_length (max width 1) _ [] ?_ (by simp) line h
  intro w hw
  rw [List.mem_flatMap] at hw
  obtain ⟨v, _, hwv⟩ := hw
  exact chunksOf_length_le (max width 1) (by omega) v w hwv

theorem mem_wrap {text : String} {width : Nat} {line : List Char} {c : Char}
    (h : line ∈ wrap text width) (hc : c ∈ line) : c ∈ text.data ∨ c = ' ' := by
  rcases mem_wrapGreedy (max width 1) _ [] line h hc with ⟨w, hw, hcw⟩ | hcur | hsp
  · rw [List.mem_flatMap] at hw
    obtain ⟨v, hv, hwv⟩ := hw
    exact .inl (mem_splitWords hv (mem_chunksOf (max width 1) v w hwv hcw))
  · simp at hcur
  · exact .inr hsp

theorem esc_not_mem_replicate (n : Nat) (c : Char) (hc : ¬ c = '\x1b') :
    '\x1b' ∉ List.replicate n c := by
  intro h
  exact hc ((List.eq_of_mem_replicate h).symm)

theorem stripAnsi_bold (r : List Char) :
    stripAnsi (BOLD.data ++ r) = stripAnsi r :=
  stripAnsi_esc ['[', '1'] r (by decide)

theorem stripAnsi_reset (r : List Char) :
    stripAnsi (RESET.data ++ r) = stripAnsi r :=
  stripAnsi_esc ['[', '0'] r (by decide)

theorem stripAnsi_fg_cyan (r : List Char) :
    stripAnsi ((FG "bright_cyan").data ++ r) = stripAnsi r :=
  stripAnsi_esc ['[', '9', '6'] r (by decide)

theorem stripAnsi_fg_black (r : List Char) :
    stripAnsi ((FG "bright_black").data ++ r) = stripAnsi r :=
  stripAnsi_esc ['[', '9', '0'] r (by decide)

theorem stripAnsi_fg_white (r : List Char) :
    stripAnsi ((FG "bright_white").data ++ r) = stripAnsi r :=
  stripAnsi_esc ['[', '9', '7'] r (by decide)

/-- Visible width of a plain border row. -/
theorem vis_border (c1 c2 : Char) (h1 : ¬ c1 = '\x1b') (h2 : ¬ c2 = '\x1b')
    (n : Nat) : visibleLen (c1 :: List.replicate n '─' ++ [c2]) = n + 2 := by
  unfold visibleLen
  rw [stripAnsi_clean]
  · simp only [List.length_append, List.length_cons, List.length_replicate,
      List.length_nil]
  · intro h
    rcases List.mem_append.mp h with h | h
    · rcases List.mem_cons.mp h with heq | h
      · exact h1 heq.symm
      · exact absurd (List.eq_of_mem_replicate h) (by decide)
    · rcases List.mem_cons.mp h with heq | h
      · exact h2 heq.symm
      · simp at h

/-- Visible width of the reference row. -/
theorem vis_refRow (pad : Nat) (mid : List Char) (hmid : '\x1b' ∉ mid) :
    visibleLen ('│' :: List.replicate pad ' ' ++ BOLD.data ++ (FG "bright_cyan").data
      ++ mid ++ RESET.data ++ ['│']) = pad + mid.length + 2 := by
  unfold visibleLen
  simp only [List.append_assoc, List.cons_append]
  rw [stripAnsi_cons, if_neg (by decide),
    stripAnsi_append_clean _ (esc_not_mem_replicate pad ' ' (by decide)),
    stripAnsi_bold, stripAnsi_fg_cyan, stripAnsi_append_clean _ hmid,
    stripAnsi_reset, stripAnsi_clean ['│'] (by decide)]
  simp only [List.length_cons, List.length_append, List.length_replicate,
    List.length_nil]
  omega

/-- Visible width of the separator row. -/
theorem vis_sepRow (pad n : Nat) :
    visibleLen ('│' :: List.replicate pad ' ' ++ (FG "bright_black").data
      ++ List.replicate n '─' ++ RESET.data ++ ['│']) = pad + n + 2 := by
  unfold visibleLen
  simp only [List.append_assoc, List.cons_append]
  rw [stripAnsi_cons, if_neg (by decide),
    stripAnsi_append_clean _ (esc_not_mem_replicate pad ' ' (by decide)),
    stripAnsi_fg_black,
    stripAnsi_append_clean _ (esc_not_mem_replicate n '─' (by decide)),
    stripAnsi_reset, stripAnsi_clean ['│'] (by decide)]
  simp only [List.length_cons, List.length_append, List.length_replicate,
    List.length_nil]
  omega

/-- Visible width of a wrapped text row (stated in right-nested form, as
produced by `List.cons_append`/`List.append_assoc` normalisation). -/
theorem vis_bodyRow (pad : Nat) (mid : List Char) (hmid : '\x1b' ∉ mid) :
    visibleLen ('│' :: (List.replicate pad ' ' ++ ((FG "bright_white").data
      ++ (mid ++ (RESET.data ++ (List.replicate pad ' ' ++ ['│'])))))) =
      pad + mid.length + pad + 2 := by
  unfold visibleLen
  rw [stripAnsi_cons, if_neg (by decide),
    stripAnsi_append_clean _ (esc_not_mem_replicate pad ' ' (by decide)),
    stripAnsi_fg_white, stripAnsi_append_clean _ hmid,
    stripAnsi_reset,
    stripAnsi_clean (List.replicate pad ' ' ++ ['│']) ?hc]
  case hc =>
    intro h
    rcases List.mem_append.mp h with h | h
    · exact esc_not_mem_replicate pad ' ' (by decide) h
    · simp at h
  simp only [List.length_cons, List.length_append, List.length_replicate,
    List.length_nil]
  omega

/-! ## C2: row widths of `box_text` -/

/-- C2 (counterexample): at terminal width 80 with the default padding,
the five rows of `box_text "Proverbs 3:5" "hi"` have visible widths
`[80, 82, 82, 80, 80]`: the reference row and the separator row are two
columns wider than the borders and the text row, so not every line has
the same visible width. -/
theorem c2_counterexample :
    (boxLines 80 "Proverbs 3:5" "hi").map visibleLen = [80, 82, 82, 80, 80] ∧
    ¬ ∀ r1 ∈ boxLines 80 "Proverbs 3:5" "hi",
        ∀ r2 ∈ boxLines 80 "Proverbs 3:5" "hi", visibleLen r1 = visibleLen r2 := by
  constructor
  · decide
  · decide

/-- C2 (amended): with the reference and text free of the escape
character (and the stripped reference fitting in the interior), the top
border, bottom border and every wrapped text row share the same visible
width `inner + 2·pad + 2`, independent of the text content; the
reference row and the thin separator row are exactly `pad` columns wider
(`inner + 3·pad + 2`) — a discrepancy in the source, which left-pads
those two rows whose payload is already centred to the full interior
width. -/
theorem c2_row_widths (w : Nat) (ref text : String) (pad : Nat)
    (href : '\x1b' ∉ ref.data) (htext : '\x1b' ∉ text.data)
    (hfit : (pyStrip ref).data.length ≤ (innerWidth w pad).toNat + pad * 2) :
    (boxLines w ref text pad).map visibleLen =
      ((innerWidth w pad).toNat + pad * 2 + 2) ::
      ((innerWidth w pad).toNat + pad * 3 + 2) ::
      ((innerWidth w pad).toNat + pad * 3 + 2) ::
      (List.replicate (wrap text (innerWidth w pad).toNat).length
        ((innerWidth w pad).toNat + pad * 2 + 2) ++
       [(innerWidth w pad).toNat + pad * 2 + 2]) := by
  have h20 : 20 ≤ (innerWidth w pad).toNat := by
    unfold innerWidth
    omega
  have hrefLine : '\x1b' ∉ pyCenter (pyStrip ref).data ((innerWidth w pad).toNat + pad * 2) := by
    intro h
    rcases mem_pyCenter h with h | h
    · exact href (mem_pyStripL h)
    · exact absurd h (by decide)
  simp only [boxLines, List.map_cons, List.map_append, List.map_nil]
  rw [vis_border '╭' '╮' (by decide) (by decide),
    vis_refRow pad _ hrefLine, vis_sepRow,
    vis_border '╰' '╯' (by decide) (by decide)]
  rw [pyCenter_length, Nat.max_eq_right hfit]
  rw [show pad + ((innerWidth w pad).toNat + pad * 2) + 2 =
      (innerWidth w pad).toNat + pad * 3 + 2 from by omega]
  simp only [List.cons_append, List.append_assoc]
  congr 1
  congr 1
  congr 1
  congr 1
  rw [List.eq_replicate_iff]
  refine ⟨by simp, ?_⟩
  intro b hb
  rw [List.mem_map] at hb
  obtain ⟨row, hrow, rfl⟩ := hb
  rw [List.mem_map] at hrow
  obtain ⟨ln, hln, rfl⟩ := hrow
  have hlen : ln.length ≤ (innerWidth w pad).toNat := by
    have := wrap_line_length hln
    omega
  have hclean : '\x1b' ∉ pyLJust ln (innerWidth w pad).toNat := by
    intro h
    rcases mem_pyLJust h with h | h
    · rcases mem_wrap hln h with h | h
      · exact htext h
      · exact absurd h (by decide)
    · exact absurd h (by decide)
  rw [vis_bodyRow pad _ hclean, pyLJust_length hlen]
  omega

/-! ## Generic scanning lemmas for the reference parser -/

theorem dropWhile_append_all {p : Char → Bool} :
    ∀ (a b : List Char), (∀ c ∈ a, p c) → (a ++ b).dropWhile p = b.dropWhile p := by
  intro a
  induction a with
  | nil => intro b _; rfl
  | cons x xs ih =>
    intro b h
    rw [List.cons_append, List.dropWhile_cons,
      if_pos (h x (List.mem_cons_self _ _))]
    exact ih b (fun c hc => h c (List.mem_cons_of_mem x hc))

theorem dropWhile_cons_neg {p : Char → Bool} {x : Char} (rest : List Char)
    (h : ¬ p x) : (x :: rest).dropWhile p = x :: rest := by
  rw [List.dropWhile_cons, if_neg h]

theorem takeWhile_append_all {p : Char → Bool} :
    ∀ (a b : List Char), (∀ c ∈ a, p c) → (a ++ b).takeWhile p = a ++ b.takeWhile p := by
  intro a
  induction a with
  | nil => intro b _; rfl
  | cons x xs ih =>
    intro b h
    rw [List.cons_append, List.takeWhile_cons,
      if_pos (h x (List.mem_cons_self _ _)), ih b (fun c hc => h c (List.mem_cons_of_mem x hc)),
      List.cons_append]

theorem takeWhile_cons_neg {p : Char → Bool} {x : Char} (rest : List Char)
    (h : ¬ p x) : (x :: rest).takeWhile p = [] := by
  rw [List.takeWhile_cons, if_neg h]

theorem head?_dropWhile_not {p : Char → Bool} :
    ∀ (l : List Char) {c : Char}, (l.dropWhile p).head? = some c → ¬ p c := by
  intro l
  induction l with
  | nil => intro c h; cases h
  | cons x xs ih =>
    intro c h
    rw [List.dropWhile_cons] at h
    by_cases hx : p x
    · rw [if_pos hx] at h; exact ih h
    · rw [if_neg hx] at h
      cases h
      exact hx

theorem getLast?_exists_mem (l : List Char) (h : l ≠ []) :
    ∃ c, l.getLast? = some c ∧ c ∈ l := by
  induction l with
  | nil => exact absurd rfl h
  | cons x xs ih =>
    cases hxs : xs with
    | nil => exact ⟨x, rfl, List.mem_cons_self _ _⟩
    | cons y ys =>
      subst hxs
      obtain ⟨c, hc, hmem⟩ := ih (by simp)
      exact ⟨c, by rw [List.getLast?_cons_cons]; exact hc,
        List.mem_cons_of_mem x hmem⟩

/-- The last character of a stripped string is not whitespace. -/
theorem pyStripL_getLast {x : List Char} {c : Char}
    (h : (pyStripL x).getLast? = some c) : ¬ isPySpace c := by
  unfold pyStripL at h
  rw [List.getLast?_reverse] at h
  exact head?_dropWhile_not _ h

/-! ## Character class facts -/

theorem isPySpace_elim {c : Char} (h : isPySpace c) :
    c = ' ' ∨ c = '\t' ∨ c = '\n' ∨ c = '\r' ∨ c = '\x0b' ∨ c = '\x0c' := by
  simp only [isPySpace, Bool.or_eq_true, decide_eq_true_eq] at h
  tauto

theorem not_pySpace_of_toLower_p {c : Char} (h : c.toLower = 'p') :
    ¬ isPySpace c := by
  intro hs
  rcases isPySpace_elim hs with rfl | rfl | rfl | rfl | rfl | rfl <;> simp at h

theorem not_pySpace_of_isDigit {c : Char} (h : c.isDigit) : ¬ isPySpace c := by
  intro hs
  rcases isPySpace_elim hs with rfl | rfl | rfl | rfl | rfl | rfl <;> simp at h

theorem not_isDigit_of_pySpace {c : Char} (h : isPySpace c) : ¬ c.isDigit :=
  fun hd => not_pySpace_of_isDigit hd h

/-! ## Case-insensitive literal matching -/

theorem matchLitCI_sound : ∀ (pat l r : List Char), matchLitCI pat l = some r →
    ∃ pv, l = pv ++ r ∧ pv.map Char.toLower = pat.map Char.toLower := by
  intro pat
  induction pat with
  | nil =>
    intro l r h
    cases h
    exact ⟨[], rfl, rfl⟩
  | cons p ps ih =>
    intro l r h
    cases l with
    | nil => cases h
    | cons c cs =>
      unfold matchLitCI at h
      by_cases hce : ciEqChar c p
      · rw [if_pos hce] at h
        obtain ⟨pv, rfl, hmap⟩ := ih cs r h
        refine ⟨c :: pv, rfl, ?_⟩
        simp only [List.map_cons, hmap]
        unfold ciEqChar at hce
        rw [decide_eq_true_eq] at hce
        rw [hce]
      · rw [if_neg hce] at h
        cases h

theorem matchLitCI_complete : ∀ (pat pv r : List Char),
    pv.map Char.toLower = pat.map Char.toLower →
    matchLitCI pat (pv ++ r) = some r := by
  intro pat
  induction pat with
  | nil =>
    intro pv r h
    have : pv = [] := by
      cases pv with
      | nil => rfl
      | cons a as => cases h
    subst this
    rfl
  | cons p ps ih =>
    intro pv r h
    cases pv with
    | nil => cases h
    | cons c cs =>
      simp only [List.map_cons, List.cons.injEq] at h
      rw [List.cons_append]
      unfold matchLitCI
      rw [if_pos (by unfold ciEqChar; rw [decide_eq_true_eq]; exact h.1)]
      exact ih cs r h.2

/-! ## Soundness and completeness of the reference parser -/

/-- Every successful `REF_RE` match exhibits the spec's decomposition of
the line. -/
theorem refMatch_sound {l g1 g2 : List Char}
    (h : refMatch l = some (g1, g2)) : SpecRefSplit l g1 g2 := by
  unfold refMatch at h
  split at h
  · cases h
  next r1 hm =>
    split at h
    · cases h
    next h1 =>
      split at h
      · cases h
      next h2 =>
        split at h
        · cases h
        next c3 r4 hr3 =>
          split at h
          next hc3 =>
            split at h
            · cases h
            next h4 =>
              split at h
              · cases h
              next c5 r5 hr5 =>
                split at h
                next hc5 =>
                  subst hc3
                  rw [Option.some.injEq, Prod.mk.injEq] at h
                  obtain ⟨hg1, hg2⟩ := h
                  -- name the pieces
                  obtain ⟨pv, hrest0, hpv⟩ := matchLitCI_sound _ _ _ hm
                  have hpv' : pv.map Char.toLower = proverbsLit := by
                    rw [hpv]; decide
                  refine ⟨l.takeWhile isPySpace, pv, r1.takeWhile isPySpace,
                    (r1.dropWhile isPySpace).takeWhile Char.isDigit,
                    r4.takeWhile Char.isDigit, (c5 :: r5).takeWhile isPySpace,
                    ?_, ?_, ?_, hpv', h1, ?_, h2, ?_, h4, ?_, ?_, ?_, ?_⟩
                  · -- l = lead ++ g1 ++ sep ++ txt
                    have e1 : r1 = r1.takeWhile isPySpace ++ r1.dropWhile isPySpace :=
                      (List.takeWhile_append_dropWhile _ _).symm
                    have e2 : r1.dropWhile isPySpace =
                        (r1.dropWhile isPySpace).takeWhile Char.isDigit ++
                        (':' :: r4) := by
                      conv_lhs => rw [← List.takeWhile_append_dropWhile Char.isDigit
                        (r1.dropWhile isPySpace)]
                      rw [hr3]
                    have e3 : r4 = r4.takeWhile Char.isDigit ++ (c5 :: r5) := by
                      conv_lhs => rw [← List.takeWhile_append_dropWhile Char.isDigit r4]
                      rw [hr5]
                    have e4 : (c5 :: r5 : List Char) =
                        (c5 :: r5).takeWhile isPySpace ++
                        (c5 :: r5).dropWhile isPySpace :=
                      (List.takeWhile_append_dropWhile _ _).symm
                    have hrest0' : l.dropWhile isPySpace =
                        (pv ++ (r1.takeWhile isPySpace ++
                          ((r1.dropWhile isPySpace).takeWhile Char.isDigit ++
                            ':' :: r4.takeWhile Char.isDigit))) ++ (c5 :: r5) := by
                      rw [hrest0]
                      conv_lhs => rw [e1, e2, e3]
                      simp [List.append_assoc]
                    have hg1' : g1 = pv ++ (r1.takeWhile isPySpace ++
                        ((r1.dropWhile isPySpace).takeWhile Char.isDigit ++
                          ':' :: r4.takeWhile Char.isDigit)) := by
                      rw [← hg1, hrest0']
                      rw [show ((pv ++ (r1.takeWhile isPySpace ++
                          ((r1.dropWhile isPySpace).takeWhile Char.isDigit ++
                            ':' :: r4.takeWhile Char.isDigit))) ++ (c5 :: r5)).length -
                            (c5 :: r5).length =
                          (pv ++ (r1.takeWhile isPySpace ++
                          ((r1.dropWhile isPySpace).takeWhile Char.isDigit ++
                            ':' :: r4.takeWhile Char.isDigit))).length from by
                        simp [List.length_append]
                        omega]
                      exact List.take_left _ _
                    conv_lhs => rw [← List.takeWhile_append_dropWhile isPySpace l]
                    rw [hrest0', hg1', ← hg2]
                    conv_rhs => rw [e4]
                    simp [List.append_assoc]
                  · -- g1 decomposition
                    have hg1' : g1 = pv ++ (r1.takeWhile isPySpace ++
                        ((r1.dropWhile isPySpace).takeWhile Char.isDigit ++
                          ':' :: r4.takeWhile Char.isDigit)) := by
                      obtain ⟨pv2, hrest02, hpv2⟩ := matchLitCI_sound _ _ _ hm
                      have e1 : r1 = r1.takeWhile isPySpace ++ r1.dropWhile isPySpace :=
                        (List.takeWhile_append_dropWhile _ _).symm
                      have e2 : r1.dropWhile isPySpace =
                          (r1.dropWhile isPySpace).takeWhile Char.isDigit ++
                          (':' :: r4) := by
                        conv_lhs => rw [← List.takeWhile_append_dropWhile Char.isDigit
                          (r1.dropWhile isPySpace)]
                        rw [hr3]
                      have e3 : r4 = r4.takeWhile Char.isDigit ++ (c5 :: r5) := by
                        conv_lhs => rw [← List.takeWhile_append_dropWhile Char.isDigit r4]
                        rw [hr5]
                      have hrest0' : l.dropWhile isPySpace =
                          (pv ++ (r1.takeWhile isPySpace ++
                            ((r1.dropWhile isPySpace).takeWhile Char.isDigit ++
                              ':' :: r4.takeWhile Char.isDigit))) ++ (c5 :: r5) := by
                        rw [hrest0]
                        conv_lhs => rw [e1, e2, e3]
                        simp [List.append_assoc]
                      rw [← hg1, hrest0']
                      rw [show ((pv ++ (r1.takeWhile isPySpace ++
                          ((r1.dropWhile isPySpace).takeWhile Char.isDigit ++
                            ':' :: r4.takeWhile Char.isDigit))) ++ (c5 :: r5)).length -
                            (c5 :: r5).length =
                          (pv ++ (r1.takeWhile isPySpace ++
                          ((r1.dropWhile isPySpace).takeWhile Char.isDigit ++
                            ':' :: r4.takeWhile Char.isDigit))).length from by
                        simp [List.length_append]
                        omega]
                      exact List.take_left _ _
                    rw [hg1']
                    simp [List.append_assoc]
                  · exact fun c hc => List.mem_takeWhile_imp hc
                  · exact fun c hc => List.mem_takeWhile_imp hc
                  · exact fun c hc => List.mem_takeWhile_imp hc
                  · exact fun c hc => List.mem_takeWhile_imp hc
                  · -- sep ≠ []
                    rw [List.takeWhile_cons, if_pos hc5]
                    simp
                  · exact fun c hc => List.mem_takeWhile_imp hc
                  · -- txt head not whitespace
                    intro c hc
                    rw [← hg2] at hc
                    exact head?_dropWhile_not _ hc
                next hc5 => cases h
          next hc3 => cases h

/-- Branch equation: the successful path of `refMatch`, given the
intermediate scanning results. -/
theorem refMatch_eq_of {l r1 r4 : List Char} {c5 : Char} {r5 : List Char}
    (hm : matchLitCI proverbsLit (l.dropWhile isPySpace) = some r1)
    (h1 : ¬ r1.takeWhile isPySpace = [])
    (h2 : ¬ (r1.dropWhile isPySpace).takeWhile Char.isDigit = [])
    (hr3 : (r1.dropWhile isPySpace).dropWhile Char.isDigit = ':' :: r4)
    (h4 : ¬ r4.takeWhile Char.isDigit = [])
    (hr5 : r4.dropWhile Char.isDigit = c5 :: r5)
    (hc5 : isPySpace c5) :
    refMatch l = some ((l.dropWhile isPySpace).take
        ((l.dropWhile isPySpace).length - (c5 :: r5).length),
      (c5 :: r5).dropWhile isPySpace) := by
  simp only [refMatch, hm, if_neg h1, if_neg h2, hr3, if_pos rfl, if_neg h4, hr5,
    if_pos hc5, if_true]

/-- Every line admitting the spec's decomposition is matched by `REF_RE`
into exactly that reference and text. -/
theorem refMatch_complete {l refg txt : List Char} (h : SpecRefSplit l refg txt) :
    refMatch l = some (refg, txt) := by
  obtain ⟨lead, pv, ws1, d1, d2, sep, hl, hrefg, hlead, hpv, hws1ne, hws1, hd1ne, hd1,
    hd2ne, hd2, hsepne, hsep, hhead⟩ := h
  obtain ⟨p0, pvt, rfl⟩ : ∃ p0 pvt, pv = p0 :: pvt := by
    cases pv with
    | nil => cases hpv
    | cons a as => exact ⟨a, as, rfl⟩
  have hp0 : ¬ isPySpace p0 := by
    have hlow : p0.toLower = 'p' := by
      have := congrArg List.head? hpv
      simp only [List.map_cons, List.head?_cons, proverbsLit, Option.some.injEq] at this
      exact this
    exact not_pySpace_of_toLower_p hlow
  obtain ⟨w0, ws1t, rfl⟩ : ∃ w0 t, ws1 = w0 :: t := by
    cases ws1 with
    | nil => exact absurd rfl hws1ne
    | cons a as => exact ⟨a, as, rfl⟩
  obtain ⟨e0, d1t, rfl⟩ : ∃ e0 t, d1 = e0 :: t := by
    cases d1 with
    | nil => exact absurd rfl hd1ne
    | cons a as => exact ⟨a, as, rfl⟩
  obtain ⟨f0, d2t, rfl⟩ : ∃ f0 t, d2 = f0 :: t := by
    cases d2 with
    | nil => exact absurd rfl hd2ne
    | cons a as => exact ⟨a, as, rfl⟩
  obtain ⟨s0, sept, rfl⟩ : ∃ s0 t, sep = s0 :: t := by
    cases sep with
    | nil => exact absurd rfl hsepne
    | cons a as => exact ⟨a, as, rfl⟩
  have he0 : e0.isDigit := hd1 e0 (List.mem_cons_self _ _)
  have hf0 : f0.isDigit := hd2 f0 (List.mem_cons_self _ _)
  have hs0 : isPySpace s0 := hsep s0 (List.mem_cons_self _ _)
  have hdw : l.dropWhile isPySpace =
      p0 :: (pvt ++ (w0 :: (ws1t ++ (e0 :: (d1t ++ (':' :: (f0 :: (d2t ++
        (s0 :: (sept ++ txt)))))))))) := by
    have h0 : l = lead ++ (p0 :: (pvt ++ (w0 :: (ws1t ++ (e0 :: (d1t ++
        (':' :: (f0 :: (d2t ++ (s0 :: (sept ++ txt))))))))))) := by
      rw [hl, hrefg]
      simp [List.append_assoc, List.cons_append]
    rw [h0, dropWhile_append_all lead _ hlead, dropWhile_cons_neg _ hp0]
  have hm : matchLitCI proverbsLit (l.dropWhile isPySpace) =
      some (w0 :: (ws1t ++ (e0 :: (d1t ++ (':' :: (f0 :: (d2t ++
        (s0 :: (sept ++ txt))))))))) := by
    rw [hdw]
    exact matchLitCI_complete proverbsLit (p0 :: pvt) _ (by rw [hpv]; decide)
  have hC : (w0 :: (ws1t ++ (e0 :: (d1t ++ (':' :: (f0 :: (d2t ++
      (s0 :: (sept ++ txt))))))))).takeWhile isPySpace = w0 :: ws1t := by
    rw [show (w0 :: (ws1t ++ (e0 :: (d1t ++ (':' :: (f0 :: (d2t ++
        (s0 :: (sept ++ txt))))))))) =
      (w0 :: ws1t) ++ (e0 :: (d1t ++ (':' :: (f0 :: (d2t ++
        (s0 :: (sept ++ txt))))))) from by simp]
    rw [takeWhile_append_all _ _ hws1,
      takeWhile_cons_neg _ (not_pySpace_of_isDigit he0), List.append_nil]
  have hD : (w0 :: (ws1t ++ (e0 :: (d1t ++ (':' :: (f0 :: (d2t ++
      (s0 :: (sept ++ txt))))))))).dropWhile isPySpace =
      e0 :: (d1t ++ (':' :: (f0 :: (d2t ++ (s0 :: (sept ++ txt)))))) := by
    rw [show (w0 :: (ws1t ++ (e0 :: (d1t ++ (':' :: (f0 :: (d2t ++
        (s0 :: (sept ++ txt))))))))) =
      (w0 :: ws1t) ++ (e0 :: (d1t ++ (':' :: (f0 :: (d2t ++
        (s0 :: (sept ++ txt))))))) from by simp]
    rw [dropWhile_append_all _ _ hws1,
      dropWhile_cons_neg _ (not_pySpace_of_isDigit he0)]
  have hE : (e0 :: (d1t ++ (':' :: (f0 :: (d2t ++
      (s0 :: (sept ++ txt))))))).takeWhile Char.isDigit = e0 :: d1t := by
    rw [show (e0 :: (d1t ++ (':' :: (f0 :: (d2t ++ (s0 :: (sept ++ txt))))))) =
      (e0 :: d1t) ++ (':' :: (f0 :: (d2t ++ (s0 :: (sept ++ txt))))) from by simp]
    rw [takeWhile_append_all _ _ hd1,
      takeWhile_cons_neg _ (by decide : ¬ (':' : Char).isDigit = true),
      List.append_nil]
  have hF : (e0 :: (d1t ++ (':' :: (f0 :: (d2t ++
      (s0 :: (sept ++ txt))))))).dropWhile Char.isDigit =
      ':' :: (f0 :: (d2t ++ (s0 :: (sept ++ txt)))) := by
    rw [show (e0 :: (d1t ++ (':' :: (f0 :: (d2t ++ (s0 :: (sept ++ txt))))))) =
      (e0 :: d1t) ++ (':' :: (f0 :: (d2t ++ (s0 :: (sept ++ txt))))) from by simp]
    rw [dropWhile_append_all _ _ hd1,
      dropWhile_cons_neg _ (by decide : ¬ (':' : Char).isDigit = true)]
  have hG : (f0 :: (d2t ++ (s0 :: (sept ++ txt)))).takeWhile Char.isDigit =
      f0 :: d2t := by
    rw [show (f0 :: (d2t ++ (s0 :: (sept ++ txt)))) =
      (f0 :: d2t) ++ (s0 :: (sept ++ txt)) from by simp]
    rw [takeWhile_append_all _ _ hd2,
      takeWhile_cons_neg _ (not_isDigit_of_pySpace hs0), List.append_nil]
  have hH : (f0 :: (d2t ++ (s0 :: (sept ++ txt)))).dropWhile Char.isDigit =
      s0 :: (sept ++ txt) := by
    rw [show (f0 :: (d2t ++ (s0 :: (sept ++ txt)))) =
      (f0 :: d2t) ++ (s0 :: (sept ++ txt)) from by simp]
    rw [dropWhile_append_all _ _ hd2,
      dropWhile_cons_neg _ (not_isDigit_of_pySpace hs0)]
  rw [refMatch_eq_of hm (by rw [hC]; simp) (by rw [hD, hE]; simp)
    (by rw [hD, hF]) (by rw [hG]; simp) (by rw [hH]) hs0]
  have hdw2 : l.dropWhile isPySpace = refg ++ (s0 :: (sept ++ txt)) := by
    rw [hdw, hrefg]
    simp [List.append_assoc]
  have htxt : (s0 :: (sept ++ txt)).dropWhile isPySpace = txt := by
    rw [show (s0 :: (sept ++ txt)) = (s0 :: sept) ++ txt from by simp]
    rw [dropWhile_append_all _ _ hsep]
    cases txt with
    | nil => rfl
    | cons t0 ts => exact dropWhile_cons_neg _ (hhead t0 rfl)
  have htake : (l.dropWhile isPySpace).take
      ((l.dropWhile isPySpace).length - (s0 :: (sept ++ txt)).length) = refg := by
    rw [hdw2]
    rw [show (refg ++ (s0 :: (sept ++ txt))).length - (s0 :: (sept ++ txt)).length =
      refg.length from by simp [List.length_append]]
    exact List.take_left _ _
  rw [htake, htxt]

/-! ## C8 and C9: `load_verses` on non-blank lines -/

theorem string_mk_ne_empty {l : List Char} (h : l ≠ []) : (⟨l⟩ : String) ≠ "" :=
  fun he => h (congrArg String.data he)

theorem pyStrip_eq_empty_iff (s : String) :
    pyStrip s = "" ↔ pyStripL s.data = [] := by
  constructor
  · intro h; exact congrArg String.data h
  · intro h; unfold pyStrip; rw [h]

/-- On a stripped non-blank line, the text field produced by the
`load_verses` loop body is never empty: the placeholder branch keeps the
whole line, and a `REF_RE` match cannot have an empty group 2 because the
mandatory separator whitespace would then be trailing whitespace of a
stripped line. -/
theorem parseLine_strip_snd_ne (x : List Char) (hne : pyStripL x ≠ []) :
    (parseLine ⟨pyStripL x⟩).2 ≠ "" := by
  unfold parseLine
  cases hr : refMatch (String.mk (pyStripL x)).data with
  | none =>
    exact string_mk_ne_empty hne
  | some g =>
    obtain ⟨g1, g2⟩ := g
    refine string_mk_ne_empty ?_
    intro hg2
    subst hg2
    have hs : SpecRefSplit (pyStripL x) g1 [] := refMatch_sound hr
    obtain ⟨lead, pv, ws1, d1, d2, sep, hl, _, _, _, _, _, _, _, _, _, hsepne, hsep, _⟩ := hs
    obtain ⟨c, hc, hcm⟩ := getLast?_exists_mem sep hsepne
    have hlast : (pyStripL x).getLast? = some c := by
      rw [hl]
      simp [List.getLast?_append, hc]
    exact pyStripL_getLast hlast (hsep c hcm)

theorem parseLines_length :
    ∀ lines : List String, (parseLines lines).length = countNonBlank lines := by
  intro lines
  induction lines with
  | nil => rfl
  | cons ln rest ih =>
    unfold parseLines countNonBlank
    by_cases hb : pyStrip ln = ""
    · rw [if_pos hb]
      rw [List.filter_cons_of_neg (by simp [hb])]
      exact ih
    · rw [if_neg hb]
      rw [List.filter_cons_of_pos (by simp [hb])]
      simp only [List.length_cons]
      rw [ih]
      rfl

theorem parseLines_snd_ne :
    ∀ (lines : List String) (v : String × String), v ∈ parseLines lines →
      v.2 ≠ "" := by
  intro lines
  induction lines with
  | nil => intro v hv; simp [parseLines] at hv
  | cons ln rest ih =>
    intro v hv
    unfold parseLines at hv
    by_cases hb : pyStrip ln = ""
    · rw [if_pos hb] at hv
      exact ih v hv
    · rw [if_neg hb] at hv
      rcases List.mem_cons.mp hv with heq | hv
      · subst heq
        exact parseLine_strip_snd_ne ln.data
          (fun h => hb ((pyStrip_eq_empty_iff ln).mpr h))
      · exact ih v hv

/-- C8: for every existing corpus file with at least one non-blank line,
`load_verses` succeeds with one record per non-blank line, every record's
text non-empty. -/
theorem c8_load_verses (lines : List String) (h : 0 < countNonBlank lines) :
    ∃ vs, load_verses true lines = .ok vs ∧
      vs.length = countNonBlank lines ∧
      ∀ v ∈ vs, v.2 ≠ "" := by
  refine ⟨parseLines lines, ?_, parseLines_length lines, parseLines_snd_ne lines⟩
  unfold load_verses
  rw [if_neg (by simp)]
  rw [if_neg ?hne]
  case hne =>
    intro hnil
    rw [← parseLines_length lines] at h
    rw [hnil] at h
    simp at h

/-- C8 (witness): a three-line file with one blank line loads into two
records with non-empty texts. -/
theorem c8_witness :
    ∃ vs, load_verses true ["Proverbs 1:1  wisdom", "   ", "plain text"] = .ok vs ∧
      vs.length = countNonBlank ["Proverbs 1:1  wisdom", "   ", "plain text"] ∧
      ∀ v ∈ vs, v.2 ≠ "" :=
  c8_load_verses ["Proverbs 1:1  wisdom", "   ", "plain text"] (by decide)

/-- C9 (counterexample): a reference prefix separated from the body by a
SINGLE space is split into (reference, text) — it does not become a
placeholder record with the whole line as text, contrary to the claim
that two or more spaces are required. -/
theorem c9_counterexample :
    load_verses true ["Proverbs 3:5 trust in him"] =
      .ok [("Proverbs 3:5", "trust in him")] ∧
    load_verses true ["Proverbs 3:5 trust in him"] ≠
      .ok [("Proverbs ?", "Proverbs 3:5 trust in him")] := by
  constructor
  · decide
  · decide

/-- C9 (amended): a non-blank corpus line is split into (reference, text)
exactly when the (case-insensitive) reference prefix is followed by ONE
or more whitespace characters before the text (which starts with a
non-blank character); every line the pattern does not match becomes a
record with the placeholder reference and the whole line as text.
`SpecRefSplit` is the spec-side decomposition; `refMatch`/`parseLine` are
the code. -/
theorem c9_split_iff (l : List Char) :
    (∀ refg txt, SpecRefSplit l refg txt ↔ refMatch l = some (refg, txt)) ∧
    (refMatch l = none → parseLine ⟨l⟩ = ("Proverbs ?", ⟨l⟩)) := by
  constructor
  · intro refg txt
    exact ⟨refMatch_complete, refMatch_sound⟩
  · intro hn
    unfold parseLine
    rw [show (String.mk l).data = l from rfl, hn]

/-- C9 (witness): the amended equivalence applied at a concrete
single-space line, and the placeholder branch at a concrete
non-matching line. -/
theorem c9_witness :
    SpecRefSplit "Proverbs 3:5 hi".data "Proverbs 3:5".data "hi".data ∧
    parseLine "no reference here" = ("Proverbs ?", "no reference here") := by
  constructor
  · exact ((c9_split_iff "Proverbs 3:5 hi".data).1
      "Proverbs 3:5".data "hi".data).mpr (by decide)
  · exact (c9_split_iff "no reference here".data).2 (by decide)

/-- C2 (witness): the amended width equation at a concrete box. -/
theorem c2_witness :
    (boxLines 30 "Proverbs 1:1" "abc def" 2).map visibleLen =
      [30, 32, 32, 30, 30] := by
  have h := c2_row_widths 30 "Proverbs 1:1" "abc def" 2
    (by decide) (by decide) (by decide)
  rw [h]
  decide

end Terry
